import Mathlib

/-!
Verification of the iron-bin trash store engine.

The engine (crate `iron-bin`, modules `trash`, `trash/info`, `trash/dir_sizes`,
plus the `camino_ext` helper) is shallowly embedded below.  Strings and file
contents are modelled as lists of bytes (`List Nat`, each element `< 256`),
the filesystem as an association list from absolute paths to nodes, and every
fallible operation returns `Except`/`Option` values.  All definitions follow
the Rust source; theorems about the frozen specification claims come after
the definitions.
-/

deriving instance DecidableEq for Except

namespace IronBin

/-- Byte list of an ASCII string (used for constants such as key names). -/
def bs (s : String) : List Nat := s.data.map Char.toNat

/-- Predicate: every element of the list is a byte. -/
def allBytes (l : List Nat) : Bool := l.all (fun b => b < 256)

/-! ## Percent codec (the `urlencoding` crate, as used by `info.rs` and `dir_sizes.rs`) -/

/-- Bytes kept verbatim by `urlencoding::encode`: ASCII alphanumerics and `-._~`. -/
def isUnreservedByte (b : Nat) : Bool :=
  (48 ≤ b && b ≤ 57) || (65 ≤ b && b ≤ 90) || (97 ≤ b && b ≤ 122) ||
    b == 45 || b == 46 || b == 95 || b == 126

/-- Upper-case hexadecimal digit byte for a value below 16. -/
def hexDigitUpper (n : Nat) : Nat := if n < 10 then 48 + n else 55 + n

/-- Percent-encoding of a byte sequence (`urlencoding::encode`). -/
def pctEncode : List Nat → List Nat
  | [] => []
  | b :: rest =>
    (if isUnreservedByte b then [b]
     else [37, hexDigitUpper (b / 16), hexDigitUpper (b % 16)]) ++ pctEncode rest

/-- Value of a hexadecimal digit byte, upper or lower case. -/
def fromHexDigit (b : Nat) : Option Nat :=
  if 48 ≤ b ∧ b ≤ 57 then some (b - 48)
  else if 65 ≤ b ∧ b ≤ 70 then some (b - 55)
  else if 97 ≤ b ∧ b ≤ 102 then some (b - 87)
  else none

/-- Byte-level percent-decoding (`urlencoding::decode_binary`): a `%` followed
by two hexadecimal digits becomes one byte, any malformed escape is passed
through verbatim. -/
def pctDecodeBytes : List Nat → List Nat
  | [] => []
  | [b] => [b]
  | [b, c] => b :: pctDecodeBytes [c]
  | b :: b1 :: b2 :: rest =>
    if b = 37 then
      match fromHexDigit b1, fromHexDigit b2 with
      | some h, some l => (h * 16 + l) :: pctDecodeBytes rest
      | _, _ => 37 :: pctDecodeBytes (b1 :: b2 :: rest)
    else b :: pctDecodeBytes (b1 :: b2 :: rest)

/-- Continuation byte of a UTF-8 sequence. -/
def isUtf8Cont (b : Nat) : Bool := 128 ≤ b && b ≤ 191

/-- UTF-8 validity of a byte sequence (the check performed by
`String::from_utf8` inside `urlencoding::decode`). -/
def validUtf8 : List Nat → Bool
  | [] => true
  | b :: rest =>
    if b ≤ 127 then validUtf8 rest
    else if 194 ≤ b && b ≤ 223 then
      match rest with
      | c1 :: r => isUtf8Cont c1 && validUtf8 r
      | [] => false
    else if b == 224 then
      match rest with
      | c1 :: c2 :: r => (160 ≤ c1 && c1 ≤ 191) && isUtf8Cont c2 && validUtf8 r
      | _ => false
    else if (225 ≤ b && b ≤ 236) || b == 238 || b == 239 then
      match rest with
      | c1 :: c2 :: r => isUtf8Cont c1 && isUtf8Cont c2 && validUtf8 r
      | _ => false
    else if b == 237 then
      match rest with
      | c1 :: c2 :: r => (128 ≤ c1 && c1 ≤ 159) && isUtf8Cont c2 && validUtf8 r
      | _ => false
    else if b == 240 then
      match rest with
      | c1 :: c2 :: c3 :: r =>
        (144 ≤ c1 && c1 ≤ 191) && isUtf8Cont c2 && isUtf8Cont c3 && validUtf8 r
      | _ => false
    else if 241 ≤ b && b ≤ 243 then
      match rest with
      | c1 :: c2 :: c3 :: r =>
        isUtf8Cont c1 && isUtf8Cont c2 && isUtf8Cont c3 && validUtf8 r
      | _ => false
    else if b == 244 then
      match rest with
      | c1 :: c2 :: c3 :: r =>
        (128 ≤ c1 && c1 ≤ 143) && isUtf8Cont c2 && isUtf8Cont c3 && validUtf8 r
      | _ => false
    else false

/-- String-level percent-decoding (`urlencoding::decode`): decode the bytes,
then require the result to be valid UTF-8. -/
def pctDecode (l : List Nat) : Option (List Nat) :=
  let d := pctDecodeBytes l
  if validUtf8 d then some d else none

/-! ## Timestamps (`chrono::NaiveDateTime` at second precision) -/

/-- Naive local date-time with second precision. -/
structure NaiveDateTime where
  year : Nat
  month : Nat
  day : Nat
  hour : Nat
  minute : Nat
  second : Nat
deriving DecidableEq, Repr

/-- Gregorian leap year. -/
def isLeapYear (y : Nat) : Bool := (y % 4 == 0 && y % 100 != 0) || y % 400 == 0

/-- Number of days in a month. -/
def daysInMonth (y m : Nat) : Nat :=
  if m == 2 then (if isLeapYear y then 29 else 28)
  else if m == 4 || m == 6 || m == 9 || m == 11 then 30
  else 31

/-- Calendar validity of a date-time (four-digit year). -/
def NaiveDateTime.valid (t : NaiveDateTime) : Bool :=
  t.year ≤ 9999 && 1 ≤ t.month && t.month ≤ 12 && 1 ≤ t.day &&
    t.day ≤ daysInMonth t.year t.month && t.hour ≤ 23 && t.minute ≤ 59 && t.second ≤ 59

/-- Two-digit zero-padded decimal bytes. -/
def pad2 (n : Nat) : List Nat := [48 + n / 10, 48 + n % 10]

/-- Four-digit zero-padded decimal bytes. -/
def pad4 (n : Nat) : List Nat :=
  [48 + n / 1000, 48 + n / 100 % 10, 48 + n / 10 % 10, 48 + n % 10]

/-- Bytes of a date-time in the fixed pattern of the `DeletionDate` entry. -/
def formatDateTime (t : NaiveDateTime) : List Nat :=
  pad4 t.year ++ (45 :: (pad2 t.month ++ (45 :: (pad2 t.day ++ (84 :: (pad2 t.hour ++
    (58 :: (pad2 t.minute ++ (58 :: pad2 t.second)))))))))

/-- Value of a decimal digit byte. -/
def digitVal (b : Nat) : Option Nat := if 48 ≤ b ∧ b ≤ 57 then some (b - 48) else none

/-- Parse two decimal digit bytes. -/
def parse2 : List Nat → Option (Nat × List Nat)
  | a :: b :: r =>
    match digitVal a, digitVal b with
    | some x, some y => some (x * 10 + y, r)
    | _, _ => none
  | _ => none

/-- Parse four decimal digit bytes. -/
def parse4 : List Nat → Option (Nat × List Nat)
  | a :: b :: c :: d :: r =>
    match digitVal a, digitVal b, digitVal c, digitVal d with
    | some x, some y, some z, some w => some (((x * 10 + y) * 10 + z) * 10 + w, r)
    | _, _, _, _ => none
  | _ => none

/-- Expect one given byte. -/
def expectByte (c : Nat) : List Nat → Option (List Nat)
  | b :: r => if b = c then some r else none
  | [] => none

/-- Parse a date-time in the exact fixed pattern `YYYY-MM-DDTHH:MM:SS`,
rejecting invalid dates: the pattern the specification names for the
`DeletionDate` entry and the one the encoder writes.  The program itself
decodes the entry with chrono's more lenient parser, `parseDateTimeChrono`
below. -/
def parseDateTimeBytes (l : List Nat) : Option NaiveDateTime := do
  let (y, l) ← parse4 l
  let l ← expectByte 45 l
  let (mo, l) ← parse2 l
  let l ← expectByte 45 l
  let (d, l) ← parse2 l
  let l ← expectByte 84 l
  let (h, l) ← parse2 l
  let l ← expectByte 58 l
  let (mi, l) ← parse2 l
  let l ← expectByte 58 l
  let (s, l) ← parse2 l
  match l with
  | [] =>
    let t : NaiveDateTime := ⟨y, mo, d, h, mi, s⟩
    if t.valid then some t else none
  | _ => none

/-! ## Size cache (`dir_sizes.rs`) -/

/-- Record in the `directorysizes` file of a trash. -/
structure DirSize where
  name : List Nat
  size : Nat
  mtime : Nat
deriving DecidableEq, Repr

/-- The in-memory cache: a map from decoded name to record. -/
abbrev DirSizes := List (List Nat × DirSize)

/-- Map lookup (first match, as in `HashMap::get`). -/
def lookupDS (m : DirSizes) (k : List Nat) : Option DirSize := m.lookup k

/-- Map insertion replacing any previous binding (as in `HashMap::insert`). -/
def insertDS (m : DirSizes) (d : DirSize) : DirSizes :=
  (d.name, d) :: m.filter (fun e => !(e.fst == d.name))

/-- ASCII whitespace byte (as recognized by `trim` and `split_whitespace`). -/
def isWsByte (b : Nat) : Bool :=
  b == 32 || b == 9 || b == 10 || b == 13 || b == 11 || b == 12

/-- Trim whitespace bytes from both ends. -/
def trimBytes (l : List Nat) : List Nat :=
  ((l.dropWhile isWsByte).reverse.dropWhile isWsByte).reverse

/-- Split at whitespace runs, discarding empty fields (`str::split_whitespace`). -/
def splitWSGo : List Nat → List Nat → List (List Nat)
  | acc, [] => if acc.isEmpty then [] else [acc.reverse]
  | acc, b :: r =>
    if isWsByte b then
      if acc.isEmpty then splitWSGo [] r else acc.reverse :: splitWSGo [] r
    else splitWSGo (b :: acc) r

/-- Whitespace-separated fields of a line. -/
def splitWS (l : List Nat) : List (List Nat) := splitWSGo [] l

/-- Parse an unsigned 64-bit decimal integer (`str::parse::<u64>`, which also
accepts a leading plus sign and rejects overflow). -/
def parseU64 (l : List Nat) : Option Nat :=
  let digits := match l with
    | 43 :: r => r
    | r => r
  if digits.isEmpty then none
  else if digits.all (fun b => 48 ≤ b && b ≤ 57) then
    let v := digits.foldl (fun a b => a * 10 + (b - 48)) 0
    if v < 2 ^ 64 then some v else none
  else none

/-- Corrected `mtime` (`dir_sizes.rs::corrected_timestamp`): timestamps after
roughly 2200-01-01 are assumed to be milliseconds and divided by 1000. -/
def correctedTimestamp (timestamp : Nat) : Nat :=
  if timestamp > 7258122000 then timestamp / 1000 else timestamp

/-- Parse one `directorysizes` line (`DirSize::read_from_line`): first three
whitespace-separated fields are size, mtime (corrected), percent-encoded name;
extra fields are ignored. -/
def readDirSizeLine (line : List Nat) : Option DirSize :=
  match splitWS line with
  | size :: mtime :: name :: _ => do
    let sz ← parseU64 size
    let mt ← parseU64 mtime
    let nameDec ← pctDecode name
    some ⟨nameDec, sz, correctedTimestamp mt⟩
  | _ => none

/-- Split a byte sequence into lines at every newline byte. -/
def splitLinesGo : List Nat → List Nat → List (List Nat)
  | acc, [] => [acc.reverse]
  | acc, b :: r =>
    if b = 10 then acc.reverse :: splitLinesGo [] r else splitLinesGo (b :: acc) r

/-- Lines of a byte sequence. -/
def splitLines (l : List Nat) : List (List Nat) := splitLinesGo [] l

/-- Read the `directorysizes` cache from file content
(`dir_sizes.rs::read_from`): lines that fail to parse are skipped, a line that
is not valid UTF-8 makes the whole read fail (`reader.lines()` yields an
error there). -/
def readDirSizesGo : List (List Nat) → DirSizes → Option DirSizes
  | [], acc => some acc
  | l :: rest, acc =>
    if validUtf8 l then
      match readDirSizeLine (trimBytes l) with
      | some d => readDirSizesGo rest (insertDS acc d)
      | none => readDirSizesGo rest acc
    else none

/-- Read the `directorysizes` cache from file content bytes. -/
def readDirSizes (content : List Nat) : Option DirSizes :=
  readDirSizesGo (splitLines content) []

/-! ## Lenient timestamp parsing (`str::parse::<chrono::NaiveDateTime>`)

`TryFrom<&Ini> for TrashInfo` parses the `DeletionDate` entry with chrono's
`FromStr` instance, which is more lenient than the fixed pattern the encoder
writes: every numeric field may have one or two digits (the year one to four,
or any width after an explicit `+` or `-` sign), whitespace may surround the
components, an optional fraction `.digits` may follow the seconds, and a leap
second 60 is accepted. -/

/-- Decimal digit byte. -/
def isDigitByte (b : Nat) : Bool := 48 ≤ b && b ≤ 57

/-- Drop leading whitespace, as chrono's parser does around components
(its `Space` items and numeric items trim the input). -/
def skipWs (l : List Nat) : List Nat := l.dropWhile isWsByte

/-- Greedy scan of at most `m` leading decimal digit bytes: accumulated
value, number of digits taken, rest (chrono's `scan::number`). -/
def scanDigits : Nat → Nat → Nat → List Nat → Nat × Nat × List Nat
  | 0, acc, cnt, l => (acc, cnt, l)
  | _ + 1, acc, cnt, [] => (acc, cnt, [])
  | m + 1, acc, cnt, b :: r =>
    if isDigitByte b then scanDigits m (acc * 10 + (b - 48)) (cnt + 1) r
    else (acc, cnt, b :: r)

/-- `scan::number(s, 1, m)`: at least one digit is required. -/
def scanNumber (m : Nat) (l : List Nat) : Option (Nat × List Nat) :=
  match scanDigits m 0 0 l with
  | (_, 0, _) => none
  | (v, _ + 1, r) => some (v, r)

/-- The year field of chrono's `NaiveDateTime` parser: an optional sign
immediately followed by digits; without a sign at most four digits are
taken, after a sign the digit run is unbounded (a fuel of the input's length
covers it).  The flag records whether the year was negated. -/
def scanYear : List Nat → Option (Bool × Nat × List Nat)
  | [] => none
  | b :: r =>
    if b = 45 then (scanNumber r.length r).map (fun p => (true, p.fst, p.snd))
    else if b = 43 then (scanNumber r.length r).map (fun p => (false, p.fst, p.snd))
    else (scanNumber 4 (b :: r)).map (fun p => (false, p.fst, p.snd))

/-- Optional fractional seconds (chrono's `Fixed::Nanosecond`): nothing, or
a dot directly followed by at least one digit, every following digit byte
being consumed.  The value is below one second, so the second-precision
embedding tracks only acceptance. -/
def scanFrac : List Nat → Option (List Nat)
  | [] => some []
  | b :: r =>
    if b = 46 then
      match scanDigits r.length 0 0 r with
      | (_, 0, _) => none
      | (_, _ + 1, r2) => some r2
    else some (b :: r)

/-- Parse a date-time as `str::parse::<chrono::NaiveDateTime>` does:
whitespace-tolerant `year-month-dayThour:minute:second` with flexible field
widths, an optionally signed year, an optional fraction after the seconds,
and a leap second 60; the fields must form a real proleptic-Gregorian
calendar date in chrono's representable year range (`-262144..=262143`) and
a valid time of day.  The Gregorian leap-year and month-length rules for a
negative year `-y` coincide with those for `y`, so the embedding carries the
year's magnitude, and a leap second is carried at the embedding's second
precision as 59 (the value chrono's `second()` reports for it). -/
def parseDateTimeChrono (l : List Nat) : Option NaiveDateTime := do
  let (neg, y, l) ← scanYear (skipWs l)
  let l ← expectByte 45 (skipWs l)
  let (mo, l) ← scanNumber 2 (skipWs l)
  let l ← expectByte 45 (skipWs l)
  let (d, l) ← scanNumber 2 (skipWs l)
  let l ← expectByte 84 (skipWs l)
  let (h, l) ← scanNumber 2 (skipWs l)
  let l ← expectByte 58 (skipWs l)
  let (mi, l) ← scanNumber 2 (skipWs l)
  let l ← expectByte 58 (skipWs l)
  let (s, l) ← scanNumber 2 (skipWs l)
  let l ← scanFrac l
  match skipWs l with
  | [] =>
    let s2 := if s == 60 then 59 else s
    if (if neg then decide (y ≤ 262144) else decide (y ≤ 262143)) &&
        (1 ≤ mo && mo ≤ 12) && (1 ≤ d && d ≤ daysInMonth y mo) &&
        h ≤ 23 && mi ≤ 59 && s2 ≤ 59 then
      some ⟨y, mo, d, h, mi, s2⟩
    else none
  | _ => none

/-! ## INI layer (the `rust-ini` crate restricted to the constructs of the
`.trashinfo` format) and the trash info codec (`info.rs`) -/

/-- Properties of one INI section, in file order; repeated keys keep every
occurrence and `get` returns the first one. -/
abbrev IniProps := List (List Nat × List Nat)

/-- Parsed INI document: a list of sections keyed by optional name (`none` is
the general section); repeated section headers are merged into the first
occurrence. -/
abbrev Ini := List (Option (List Nat) × IniProps)

/-- Split a byte sequence at the first occurrence of a byte. -/
def splitFirst (c : Nat) : List Nat → Option (List Nat × List Nat)
  | [] => none
  | b :: r =>
    if b = c then some ([], r)
    else (splitFirst c r).map (fun p => (b :: p.fst, p.snd))

/-- Classified INI line. -/
inductive IniLine
  | skip
  | sec (name : List Nat)
  | kv (key value : List Nat)
  | bad
deriving DecidableEq, Repr

/-- Classify one line of an INI document: blank lines and comments are
skipped, `[name]` opens a section, `key=value` adds a property, anything else
is a parse error. -/
def parseIniLine (l : List Nat) : IniLine :=
  let t := trimBytes l
  match t with
  | [] => IniLine.skip
  | b :: rest =>
    if b == 59 || b == 35 then IniLine.skip
    else if b == 91 then
      match rest.reverse with
      | 93 :: inner => IniLine.sec (trimBytes inner.reverse)
      | _ => IniLine.bad
    else
      match splitFirst 61 t with
      | some (k, v) => IniLine.kv (trimBytes k) (trimBytes v)
      | none => IniLine.bad

/-- Append a property to the entry of a section, creating the section entry
if it is absent. -/
def addProp (ini : Ini) (sec : Option (List Nat)) (kv : List Nat × List Nat) : Ini :=
  match ini with
  | [] => [(sec, [kv])]
  | e :: rest =>
    if e.fst == sec then (e.fst, e.snd ++ [kv]) :: rest
    else e :: addProp rest sec kv

/-- Register a section header, keeping the first occurrence. -/
def addSection (ini : Ini) (name : List Nat) : Ini :=
  if ini.any (fun e => e.fst == some name) then ini else ini ++ [(some name, [])]

/-- Fold the classified lines of an INI document into a parsed document. -/
def parseIniGo : List (List Nat) → Option (List Nat) → Ini → Option Ini
  | [], _, acc => some acc
  | l :: rest, cur, acc =>
    match parseIniLine l with
    | IniLine.skip => parseIniGo rest cur acc
    | IniLine.sec n => parseIniGo rest (some n) (addSection acc n)
    | IniLine.kv k v => parseIniGo rest cur (addProp acc cur (k, v))
    | IniLine.bad => none

/-- Parse an INI document from bytes (`Ini::read_from`). -/
def parseIni (content : List Nat) : Option Ini :=
  parseIniGo (splitLines content) none []

/-- Look up a named section (first match). -/
def iniSection (ini : Ini) (name : List Nat) : Option IniProps :=
  ini.lookup (some name)

/-- Look up a key in a section (first occurrence). -/
def propsGet (p : IniProps) (k : List Nat) : Option (List Nat) := p.lookup k

/-- Name of the required section of a `.trashinfo` record. -/
def sectionTrashInfo : List Nat := bs "Trash Info"

/-- Name of the path entry. -/
def entryPath : List Nat := bs "Path"

/-- Name of the deletion date entry. -/
def entryDeletionDate : List Nat := bs "DeletionDate"

/-- Contents of a `.trashinfo` file: original path and deletion time. -/
structure TrashInfo where
  path : List Nat
  deletionTime : NaiveDateTime
deriving DecidableEq, Repr

/-- Build a trash info from a parsed INI document
(`TryFrom<&Ini> for TrashInfo`): requires the `Trash Info` section, a `Path`
entry that percent-decodes, and a `DeletionDate` entry that chrono's
`NaiveDateTime` parser accepts. -/
def trashInfoFromIni (ini : Ini) : Option TrashInfo := do
  let sec ← iniSection ini sectionTrashInfo
  let pathEnc ← propsGet sec entryPath
  let path ← pctDecode pathEnc
  let dateStr ← propsGet sec entryDeletionDate
  let dt ← parseDateTimeChrono dateStr
  some ⟨path, dt⟩

/-- Decode a `.trashinfo` record from bytes (`TrashInfo::read_from`). -/
def decodeTrashInfo (content : List Nat) : Option TrashInfo :=
  (parseIni content).bind trashInfoFromIni

/-- Encode a trash info to `.trashinfo` bytes (`TrashInfo::write_to` through
`From<&TrashInfo> for Ini` and `Ini::write_to`): one section, the
percent-encoded path and the formatted deletion date. -/
def encodeTrashInfo (info : TrashInfo) : List Nat :=
  (91 :: (sectionTrashInfo ++ [93])) ++
    (10 :: ((entryPath ++ (61 :: pctEncode info.path)) ++
      (10 :: ((entryDeletionDate ++ (61 :: formatDateTime info.deletionTime)) ++
        (10 :: [])))))

/-! ## Filesystem model

Absolute UTF-8 paths are byte lists; the filesystem is an association list
from paths to nodes.  Symbolic links are resolved with the usual bounded
link-following of the OS. -/

/-- Absolute path as UTF-8 bytes. -/
abbrev FsPath := List Nat

/-- Filesystem node: regular file with content, directory, or symbolic link;
every node carries a modification time in seconds. -/
inductive Node
  | file (content : List Nat) (mtime : Nat)
  | dir (mtime : Nat)
  | symlink (target : FsPath) (mtime : Nat)
deriving DecidableEq, Repr

/-- Filesystem state. -/
abbrev FS := List (FsPath × Node)

/-- Node stored at a path, without following symbolic links (`lstat`). -/
def FS.get (fs : FS) (p : FsPath) : Option Node := fs.lookup p

/-- Store a node at a path, replacing any previous entry. -/
def FS.set (fs : FS) (p : FsPath) (n : Node) : FS :=
  (p, n) :: fs.filter (fun e => !(e.fst == p))

/-- Delete the entry at a path. -/
def FS.del (fs : FS) (p : FsPath) : FS := fs.filter (fun e => !(e.fst == p))

/-- Maximum number of symbolic links followed while resolving a path. -/
def linkFuel : Nat := 40

/-- Resolve the node at a path, following symbolic links (`stat`). -/
def resolveNode (fs : FS) : Nat → FsPath → Option Node
  | 0, _ => none
  | fuel + 1, p =>
    match fs.lookup p with
    | some (Node.symlink t _) => resolveNode fs fuel t
    | o => o

/-- Existence of a filesystem entry after following symbolic links
(`Utf8Path::exists`): a dangling symbolic link does not exist. -/
def pathExists (fs : FS) (p : FsPath) : Bool := (resolveNode fs linkFuel p).isSome

/-- Existence of a regular file after following symbolic links
(`Utf8Path::is_file`). -/
def isFileAt (fs : FS) (p : FsPath) : Bool :=
  match resolveNode fs linkFuel p with
  | some (Node.file _ _) => true
  | _ => false

/-- Content of the file at a path (`File::open` followed by reading, which
follows symbolic links). -/
def readFileF (fs : FS) (p : FsPath) : Option (List Nat) :=
  match resolveNode fs linkFuel p with
  | some (Node.file c _) => some c
  | _ => none

/-- Modification time of the node at a path, following symbolic links
(`Utf8Path::metadata` and `MetadataExt::mtime`). -/
def mtimeAt (fs : FS) (p : FsPath) : Option Nat :=
  match resolveNode fs linkFuel p with
  | some (Node.file _ m) => some m
  | some (Node.dir m) => some m
  | some (Node.symlink _ m) => some m
  | none => none

/-- Byte size reported by metadata: content length for regular files, target
length for symbolic links. -/
def nodeLen : Node → Nat
  | Node.file c _ => c.length
  | Node.dir _ => 0
  | Node.symlink t _ => t.length

/-- Join a directory path and a child name with a slash. -/
def pjoin (p : FsPath) (name : List Nat) : FsPath := p ++ 47 :: name

/-- Strict descendant test: `q` lies below the directory `base`. -/
def isUnder (base q : FsPath) : Bool := (base ++ [47]).isPrefixOf q

/-- Last nonempty path component (`Utf8Path::file_name`). -/
def fileNameOf? (p : FsPath) : Option (List Nat) :=
  ((p.splitOn 47).filter (fun c => !c.isEmpty)).getLast?

/-- Last nonempty path component with default. -/
def fileNameOf (p : FsPath) : List Nat := (fileNameOf? p).getD []

/-- Check that a file name has the `trashinfo` extension
(`Utf8Path::extension`): the part after the last dot, which must not be the
whole name. -/
def hasTrashinfoExt (name : List Nat) : Bool :=
  let parts := name.splitOn 46
  decide (2 ≤ parts.length) && !(parts.length == 2 && parts.head? == some []) &&
    (parts.getLastD [] == bs "trashinfo")

/-- Name of `q` as an immediate child of directory `d`, when it is one. -/
def childNameOf (d q : FsPath) : Option (List Nat) :=
  if (d ++ [47]).isPrefixOf q then
    let name := q.drop (d.length + 1)
    if name.isEmpty || name.contains 47 then none else some name
  else none

/-- Immediate children of a directory, in filesystem order (`read_dir`). -/
def readDir (fs : FS) (d : FsPath) : List FsPath :=
  fs.filterMap (fun e => (childNameOf d e.fst).map (fun _ => e.fst))

/-- Entries of a directory, or an empty list when the directory does not
exist (`camino_ext::read_dir_utf8_or_empty`); an existing non-directory is an
error. -/
def readDirOrEmpty (fs : FS) (d : FsPath) : Except Unit (List FsPath) :=
  match resolveNode fs linkFuel d with
  | none => Except.ok []
  | some (Node.dir _) => Except.ok (readDir fs d)
  | some _ => Except.error ()

/-- Rename a filesystem entry (`std::fs::rename`): moves the entry and its
whole subtree and replaces anything previously at the destination. -/
def renameFS (fs : FS) (src dst : FsPath) : FS :=
  let moved : FS := fs.filterMap (fun e =>
    if e.fst == src then some (dst, e.snd)
    else if isUnder src e.fst then some (dst ++ e.fst.drop src.length, e.snd)
    else none)
  let rest : FS := fs.filter (fun e =>
    !(e.fst == src) && !(isUnder src e.fst) && !(e.fst == dst) && !(isUnder dst e.fst))
  moved ++ rest

/-- Remove a non-directory filesystem entry (`std::fs::remove_file`): fails
when the entry is missing or is a directory. -/
def removeFileFS (fs : FS) (p : FsPath) : Except Unit FS :=
  match fs.lookup p with
  | some (Node.dir _) => Except.error ()
  | some _ => Except.ok (FS.del fs p)
  | none => Except.error ()

/-- Remove an entry as `std::fs::remove_dir_all` does: the path is `lstat`ed
first, a symbolic link is removed itself (the function does not follow it), a
directory is removed with its whole subtree, and a missing path or a regular
file is an error (`NotFound` / `NotADirectory` — the recursive removal opens
its root as a directory). -/
def removeDirAllFS (fs : FS) (p : FsPath) : Except Unit FS :=
  match fs.lookup p with
  | some (Node.dir _) =>
    Except.ok (fs.filter (fun e => !(e.fst == p) && !(isUnder p e.fst)))
  | some (Node.symlink _ _) => Except.ok (FS.del fs p)
  | some (Node.file _ _) => Except.error ()
  | none => Except.error ()

/-- Create a directory if absent (`std::fs::create_dir_all`): succeeds when a
directory already exists there, fails when a non-directory is in the way. -/
def createDirAll (fs : FS) (p : FsPath) (mt : Nat) : FS × Bool :=
  match resolveNode fs linkFuel p with
  | some (Node.dir _) => (fs, true)
  | some _ => (fs, false)
  | none => (FS.set fs p (Node.dir mt), true)

/-- Error kinds of exclusive file creation. -/
inductive CreateErr
  | alreadyExists
  | otherErr
deriving DecidableEq, Repr

/-- Parent directory of a path: the part before the last slash. -/
def parentOf (p : FsPath) : FsPath :=
  ((p.reverse.dropWhile (fun b => !(b == 47))).tail).reverse

/-- Exclusive file creation (`OpenOptions::create_new`): fails with
`alreadyExists` when any entry (even a dangling symbolic link) is present at
the path, and with another I/O error when the parent is not a directory. -/
def createNew (fs : FS) (p : FsPath) (mt : Nat) : Except CreateErr FS :=
  match fs.lookup p with
  | some _ => Except.error CreateErr.alreadyExists
  | none =>
    match resolveNode fs linkFuel (parentOf p) with
    | some (Node.dir _) => Except.ok (FS.set fs p (Node.file [] mt))
    | _ => Except.error CreateErr.otherErr

/-- Canonicalize a path (`Utf8Path::canonicalize_utf8`): the path must exist;
symbolic links are resolved. -/
def canonGo (fs : FS) : Nat → FsPath → Option FsPath
  | 0, _ => none
  | fuel + 1, p =>
    match fs.lookup p with
    | some (Node.symlink t _) => canonGo fs fuel t
    | some _ => some p
    | none => none

/-- Canonical form of a path, when the path exists. -/
def canonicalizePath (fs : FS) (p : FsPath) : Option FsPath := canonGo fs linkFuel p

/-! ## Trash store (`trash.rs`) -/

/-- Trash store, identified by its base directory (`Trash::new` derives the
info directory, files directory and `directorysizes` file from it). -/
structure Trash where
  baseDir : FsPath
deriving DecidableEq, Repr

/-- Info directory of a trash. -/
def Trash.infoDir (t : Trash) : FsPath := pjoin t.baseDir (bs "info")

/-- Files directory of a trash. -/
def Trash.filesDir (t : Trash) : FsPath := pjoin t.baseDir (bs "files")

/-- Path of the `directorysizes` file of a trash. -/
def Trash.dsFile (t : Trash) : FsPath := pjoin t.baseDir (bs "directorysizes")

/-- Path of the `.trashinfo` record for an identifier. -/
def trashinfoPath (t : Trash) (id : List Nat) : FsPath :=
  pjoin t.infoDir (id ++ 46 :: bs "trashinfo")

/-- Paths of the `.trashinfo` files of a trash (`Trash::trashinfo_paths`):
the entries of the info directory that are regular files with the
`trashinfo` extension; a missing info directory yields the empty list. -/
def trashinfoPathsOf (t : Trash) (fs : FS) : Except Unit (List FsPath) :=
  (readDirOrEmpty fs t.infoDir).map
    (List.filter (fun p => isFileAt fs p && hasTrashinfoExt (fileNameOf p)))

/-- Cached directory sizes of a trash (`Trash::dir_sizes`): read the
`directorysizes` file, with any failure degrading to an empty cache. -/
def dirSizesOf (t : Trash) (fs : FS) : DirSizes :=
  match readFileF fs t.dsFile with
  | some c => (readDirSizes c).getD []
  | none => []

/-- One listed trash entry. -/
structure TrashEntry where
  identifier : List Nat
  originalPath : FsPath
  deletionTime : NaiveDateTime
  size : Nat
deriving DecidableEq, Repr

/-- Per-entry errors during enumeration. -/
inductive EntryErr
  | openErr
  | malformed
  | metaErr
deriving DecidableEq, Repr

/-- Build one trash entry from a `.trashinfo` path (`Trash::new_entry`):
read and decode the record, require the payload, and resolve the size (cached
size for directories when the cached mtime equals the record file's current
mtime, otherwise 0; actual byte length for files and symbolic links). -/
def newEntry (t : Trash) (fs : FS) (cache : DirSizes) (tip : FsPath) :
    Except EntryErr TrashEntry :=
  let name := fileNameOf tip
  let identifier := name.take (name.length - 10)
  match readFileF fs tip with
  | none => Except.error EntryErr.openErr
  | some content =>
    match decodeTrashInfo content with
    | none => Except.error EntryErr.malformed
    | some info =>
      let filePath := pjoin t.filesDir identifier
      match fs.lookup filePath with
      | none => Except.error EntryErr.metaErr
      | some fnode =>
        match fnode with
        | Node.dir _ =>
          match mtimeAt fs tip with
          | none => Except.error EntryErr.metaErr
          | some tm =>
            let size := match lookupDS cache identifier with
              | some d => if d.mtime == tm then d.size else 0
              | none => 0
            Except.ok ⟨identifier, info.path, info.deletionTime, size⟩
        | fnode => Except.ok ⟨identifier, info.path, info.deletionTime, nodeLen fnode⟩

/-- Enumerate the trash (`Trash::entries`): one result per record file. -/
def entriesOf (t : Trash) (fs : FS) : Except Unit (List (Except EntryErr TrashEntry)) :=
  (trashinfoPathsOf t fs).map (fun tips => tips.map (newEntry t fs (dirSizesOf t fs)))

/-- Create the base, info and files directories (`Trash::create_dirs`). -/
def createDirs (t : Trash) (fs : FS) (mt : Nat) : FS × Bool :=
  let r1 := createDirAll fs t.baseDir mt
  if !r1.snd then r1 else
  let r2 := createDirAll r1.fst t.infoDir mt
  if !r2.snd then r2 else createDirAll r2.fst t.filesDir mt

/-- Little-endian decimal digit bytes of a positive number. -/
def digitsRev : Nat → Nat → List Nat
  | 0, _ => []
  | fuel + 1, n => if n = 0 then [] else (48 + n % 10) :: digitsRev fuel (n / 10)

/-- Decimal digits of a number (as produced by `format!`). -/
def natDigits (n : Nat) : List Nat :=
  if n = 0 then [48] else (digitsRev n n).reverse

/-- Candidate identifier number `n` for a base name: the base itself for 0,
then `base_1`, `base_2`, ... -/
def candidateId (base : List Nat) (n : Nat) : List Nat :=
  if n = 0 then base else base ++ 95 :: natDigits n

/-- Probe loop of `Trash::open_new_trashinfo_file`: try each candidate in
order with exclusive creation; continue past `alreadyExists`, abort on any
other creation error; the counter is a `u16`, so fuel bounds the probes. -/
def allocGo (t : Trash) (base : List Nat) : Nat → Nat → FS → Nat →
    Except Unit (List Nat × FS)
  | 0, _, _, _ => Except.error ()
  | fuel + 1, n, fs, mt =>
    let id := candidateId base n
    match createNew fs (trashinfoPath t id) mt with
    | Except.ok fs1 => Except.ok (id, fs1)
    | Except.error CreateErr.alreadyExists => allocGo t base fuel (n + 1) fs mt
    | Except.error CreateErr.otherErr => Except.error ()

/-- Allocate an identifier and create its record file
(`Trash::open_new_trashinfo_file`): the base identifier is the file-name
component of the path. -/
def openNewTrashinfoFile (t : Trash) (fs : FS) (p : FsPath) (mt : Nat) :
    Except Unit (List Nat × FS) :=
  match fileNameOf? p with
  | none => Except.error ()
  | some base => allocGo t base 65536 0 fs mt

/-- Report of a successful `put`. -/
structure TrashPutReport where
  path : FsPath
  deletionTime : NaiveDateTime
deriving DecidableEq, Repr

/-- Trash insertion (`Trash::put`): canonicalize, capture the deletion time,
create the trash directories, allocate an identifier with its record file,
write the encoded record, and move the payload into the files directory.
`now` is the captured local wall-clock time and `mt` the second timestamp the
filesystem gives created nodes. -/
def put (t : Trash) (fs : FS) (now : NaiveDateTime) (mt : Nat) (p : FsPath) :
    FS × Except Unit (TrashPutReport × List Nat) :=
  match canonicalizePath fs p with
  | none => (fs, Except.error ())
  | some cp =>
    let info : TrashInfo := ⟨cp, now⟩
    let cd := createDirs t fs mt
    if !cd.snd then (cd.fst, Except.error ()) else
    match openNewTrashinfoFile t cd.fst cp mt with
    | Except.error _ => (cd.fst, Except.error ())
    | Except.ok (id, fs2) =>
      let fs3 := FS.set fs2 (trashinfoPath t id) (Node.file (encodeTrashInfo info) mt)
      let fs4 := renameFS fs3 cp (pjoin t.filesDir id)
      (fs4, Except.ok (⟨cp, now⟩, id))

/-- Report of a successful `restore`. -/
structure TrashRestoreReport where
  path : FsPath
  deletionTime : NaiveDateTime
deriving DecidableEq, Repr

/-- Errors of `restore`. -/
inductive RestoreErr
  | openErr
  | malformed
  | origExists
  | payloadMissing
  | removeErr
deriving DecidableEq, Repr

/-- Trash restoration (`Trash::restore`): read and decode the record, refuse
when an entry exists at the original path or the payload is missing, then
move the payload back and remove the record file. -/
def restore (t : Trash) (fs : FS) (id : List Nat) :
    FS × Except RestoreErr TrashRestoreReport :=
  let tip := trashinfoPath t id
  match readFileF fs tip with
  | none => (fs, Except.error RestoreErr.openErr)
  | some content =>
    match decodeTrashInfo content with
    | none => (fs, Except.error RestoreErr.malformed)
    | some info =>
      if pathExists fs info.path then (fs, Except.error RestoreErr.origExists)
      else
        let filePath := pjoin t.filesDir id
        if !pathExists fs filePath then (fs, Except.error RestoreErr.payloadMissing)
        else
          let fs1 := renameFS fs filePath info.path
          match removeFileFS fs1 tip with
          | Except.ok fs2 => (fs2, Except.ok ⟨info.path, info.deletionTime⟩)
          | Except.error _ => (fs1, Except.error RestoreErr.removeErr)

/-- Report of a successful `empty`. -/
structure TrashEmptyReport where
  entryCount : Nat
  size : Nat
deriving DecidableEq, Repr

/-- Remove a list of record files in order (`remove_file` on each), stopping
at the first failure with the state reached so far. -/
def removeFilesSeq : FS → List FsPath → FS × Except Unit Unit
  | fs, [] => (fs, Except.ok ())
  | fs, p :: rest =>
    match removeFileFS fs p with
    | Except.error _ => (fs, Except.error ())
    | Except.ok fs1 => removeFilesSeq fs1 rest

/-- The payload loop of `empty`: `remove_dir_all` on each files-directory
entry in order, counting the removals and stopping at the first failure with
the state reached so far. -/
def removePayloadsSeq : FS → Nat → List FsPath → FS × Except Unit Nat
  | fs, n, [] => (fs, Except.ok n)
  | fs, n, c :: rest =>
    match removeDirAllFS fs c with
    | Except.error _ => (fs, Except.error ())
    | Except.ok fs1 => removePayloadsSeq fs1 (n + 1) rest

/-- Trash purge (`Trash::empty`): remove every record file, then run
`std::fs::remove_dir_all` on every entry of the files directory in order —
so a directory payload is removed with its subtree, a symbolic-link payload
is removed itself, and a regular-file payload makes the loop fail — counting
the removed entries, and finally remove the `directorysizes` file; the first
failing step aborts with an error and the state reached so far. -/
def emptyTrash (t : Trash) (fs : FS) : FS × Except Unit TrashEmptyReport :=
  match trashinfoPathsOf t fs with
  | Except.error _ => (fs, Except.error ())
  | Except.ok tips =>
    match removeFilesSeq fs tips with
    | (fs1, Except.error _) => (fs1, Except.error ())
    | (fs1, Except.ok _) =>
      match resolveNode fs1 linkFuel t.filesDir with
      | some (Node.dir _) =>
        match removePayloadsSeq fs1 0 (readDir fs1 t.filesDir) with
        | (fs2, Except.error _) => (fs2, Except.error ())
        | (fs2, Except.ok n) =>
          match removeFileFS fs2 t.dsFile with
          | Except.error _ => (fs2, Except.error ())
          | Except.ok fs3 => (fs3, Except.ok ⟨n, 0⟩)
      | _ => (fs1, Except.error ())

/-- The specification's description of `empty` (its §4.4 contract): every
record removed, then every payload of the files directory removed with its
subtree unconditionally and counted, then the size-cache file.  Written from
the spec's words — not from the code — for comparison with the program's
`emptyTrash`. -/
def emptyTrashSpec (t : Trash) (fs : FS) : FS × Except Unit TrashEmptyReport :=
  match trashinfoPathsOf t fs with
  | Except.error _ => (fs, Except.error ())
  | Except.ok tips =>
    let fs1 := tips.foldl FS.del fs
    match resolveNode fs1 linkFuel t.filesDir with
    | some (Node.dir _) =>
      let children := readDir fs1 t.filesDir
      let fs2 := children.foldl
        (fun a c => a.filter (fun e => !(e.fst == c) && !(isUnder c e.fst))) fs1
      match removeFileFS fs2 t.dsFile with
      | Except.error _ => (fs2, Except.error ())
      | Except.ok fs3 => (fs3, Except.ok ⟨children.length, 0⟩)
    | _ => (fs1, Except.error ())

/-- Lines of the size-cache file that parse into records, in file order. -/
def parsedDirSizeLines (content : List Nat) : List DirSize :=
  (splitLines content).filterMap (fun l => readDirSizeLine (trimBytes l))

/-- A well-formed one-item trash under base directory `/T` whose payload is a
regular file: one record `info/f.trashinfo`, its payload `files/f`, and the
`directorysizes` file. -/
def oneFileTrashFS : FS :=
  [(bs "/T", Node.dir 0), (bs "/T/info", Node.dir 0), (bs "/T/files", Node.dir 0),
   (bs "/T/info/f.trashinfo",
     Node.file (encodeTrashInfo ⟨bs "/x", ⟨2025, 2, 17, 13, 14, 15⟩⟩) 0),
   (bs "/T/files/f", Node.file (bs "data") 7),
   (bs "/T/directorysizes", Node.file [] 0)]

/-- The same one-item trash with a directory payload (holding one nested
file) instead of a regular-file payload. -/
def oneDirTrashFS : FS :=
  [(bs "/T", Node.dir 0), (bs "/T/info", Node.dir 0), (bs "/T/files", Node.dir 0),
   (bs "/T/info/d.trashinfo",
     Node.file (encodeTrashInfo ⟨bs "/x", ⟨2025, 2, 17, 13, 14, 15⟩⟩) 0),
   (bs "/T/files/d", Node.dir 3),
   (bs "/T/files/d/x", Node.file (bs "y") 4),
   (bs "/T/directorysizes", Node.file [] 0)]

/-! ## Helper lemmas -/

theorem lookup_filter_of_key {α β : Type} [BEq α] [LawfulBEq α] (m : List (α × β))
    (p : α × β → Bool) (k : α) (h : ∀ v, p (k, v) = true) :
    (m.filter p).lookup k = m.lookup k := by
  induction m with
  | nil => rfl
  | cons e rest ih =>
    obtain ⟨k', v'⟩ := e
    by_cases hk : k = k'
    · subst hk
      simp [List.filter_cons, h v', List.lookup_cons]
    · have hbeq : (k == k') = false := beq_false_of_ne hk
      cases hp : p (k', v') <;>
        simp [List.filter_cons, hp, List.lookup_cons, hbeq, ih]

theorem lookup_filter_none {α β : Type} [BEq α] [LawfulBEq α] (m : List (α × β))
    (p : α × β → Bool) (k : α) (h : m.lookup k = none) :
    (m.filter p).lookup k = none := by
  induction m with
  | nil => rfl
  | cons e rest ih =>
    obtain ⟨k', v'⟩ := e
    by_cases hk : k = k'
    · subst hk; simp [List.lookup_cons] at h
    · have hbeq : (k == k') = false := beq_false_of_ne hk
      rw [List.lookup_cons, hbeq] at h
      cases hp : p (k', v') <;>
        simp [List.filter_cons, hp, List.lookup_cons, hbeq, ih h]

theorem lookupDS_insertDS (m : DirSizes) (d : DirSize) (k : List Nat) :
    lookupDS (insertDS m d) k = if k = d.name then some d else lookupDS m k := by
  unfold lookupDS insertDS
  by_cases hk : k = d.name
  · simp [List.lookup_cons, hk]
  · have hbeq : (k == d.name) = false := beq_false_of_ne hk
    simp only [List.lookup_cons, hbeq, if_neg hk]
    exact lookup_filter_of_key m _ k (fun v => by simp [hbeq])

theorem readDirSizesGo_characterization : ∀ (ls : List (List Nat)) (acc : DirSizes),
    (∀ l ∈ ls, validUtf8 l = true) →
    ∃ m, readDirSizesGo ls acc = some m ∧
      ∀ name, lookupDS m name =
        (((ls.filterMap (fun l => readDirSizeLine (trimBytes l))).reverse.find?
          (fun d => d.name == name)).orElse (fun _ => lookupDS acc name)) := by
  intro ls
  induction ls with
  | nil =>
    intro acc _
    exact ⟨acc, rfl, fun name => by simp [Option.orElse]⟩
  | cons l ls ih =>
    intro acc hv
    have hvl : validUtf8 l = true := hv l (by simp)
    have hvr : ∀ x ∈ ls, validUtf8 x = true := fun x hx => hv x (by simp [hx])
    cases hparse : readDirSizeLine (trimBytes l) with
    | none =>
      obtain ⟨m, hm, hlook⟩ := ih acc hvr
      refine ⟨m, ?_, ?_⟩
      · simp [readDirSizesGo, hvl, hparse, hm]
      · intro name
        simpa [hparse] using hlook name
    | some d =>
      obtain ⟨m, hm, hlook⟩ := ih (insertDS acc d) hvr
      refine ⟨m, ?_, ?_⟩
      · simp [readDirSizesGo, hvl, hparse, hm]
      · intro name
        rw [hlook name]
        simp only [hparse, List.filterMap_cons, List.reverse_cons, List.find?_append]
        cases hf : (ls.filterMap (fun l => readDirSizeLine (trimBytes l))).reverse.find?
            (fun d => d.name == name) with
        | some e => simp [Option.orElse, hf]
        | none =>
          simp only [Option.orElse, hf, lookupDS_insertDS]
          by_cases hn : name = d.name
          · simp [List.find?, hn]
          · have : (d.name == name) = false := by simp [Ne.symm hn]
            simp [List.find?, this, hn]

/-- C7: a size-cache `mtime` denoting a point after the fixed threshold
7258122000 (roughly 2200-01-01) is reinterpreted as milliseconds and divided
by 1000 — in particular 9999999999 is divided by 1000 — while any `mtime` at
or below the threshold (every present-day second count) is left unchanged. -/
theorem corrected_timestamp_spec :
    (∀ ts, ts > 7258122000 → correctedTimestamp ts = ts / 1000) ∧
    correctedTimestamp 9999999999 = 9999999999 / 1000 ∧
    (∀ ts, ts ≤ 7258122000 → correctedTimestamp ts = ts) := by
  refine ⟨fun ts h => ?_, ?_, fun ts h => ?_⟩
  · simp [correctedTimestamp, h]
  · simp [correctedTimestamp]
  · simp [correctedTimestamp]
    omega

/-- Witness for C7: 9999999999 is divided by 1000, a present-day second
count is unchanged. -/
theorem corrected_timestamp_spec_witness :
    correctedTimestamp 9999999999 = 9999999999 / 1000 ∧
    correctedTimestamp 1700000000 = 1700000000 :=
  ⟨corrected_timestamp_spec.1 9999999999 (by decide),
   corrected_timestamp_spec.2.2 1700000000 (by decide)⟩

/-- C8: loading the size cache yields a mapping keyed by percent-decoded name
containing exactly the lines whose first three whitespace-separated fields
parse (the lookup of any name equals the last parsed record with that name,
so later occurrences win and unparsable lines contribute nothing), and a
missing or unopenable cache file yields the empty cache rather than an
error. -/
theorem dir_sizes_load_spec :
    (∀ content : List Nat, (∀ l ∈ splitLines content, validUtf8 l = true) →
      ∃ m, readDirSizes content = some m ∧
        ∀ name, lookupDS m name =
          (parsedDirSizeLines content).reverse.find? (fun d => d.name == name)) ∧
    (∀ (t : Trash) (fs : FS), readFileF fs t.dsFile = none → dirSizesOf t fs = []) := by
  constructor
  · intro content hv
    obtain ⟨m, hm, hl⟩ := readDirSizesGo_characterization (splitLines content) [] hv
    refine ⟨m, hm, fun name => ?_⟩
    rw [hl name]
    simp only [parsedDirSizeLines]
    cases hf : ((splitLines content).filterMap
        (fun l => readDirSizeLine (trimBytes l))).reverse.find? (fun d => d.name == name) with
    | none => simp [hf, lookupDS, Option.orElse, List.lookup]
    | some e => simp [hf, Option.orElse]
  · intro t fs h
    simp [dirSizesOf, h]

/-- Witness for C8: a concrete cache content with a malformed line, an extra
field and a duplicated percent-encoded name, and a state without the cache
file. -/
theorem dir_sizes_load_spec_witness :
    lookupDS ((readDirSizes (bs "100 1700000000 a%20b\nbad\n7 5 a%20b x\n")).getD [])
        (bs "a b") =
      (parsedDirSizeLines (bs "100 1700000000 a%20b\nbad\n7 5 a%20b x\n")).reverse.find?
        (fun d => d.name == bs "a b") ∧
    dirSizesOf ⟨bs "/T"⟩ [] = [] := by
  constructor
  · obtain ⟨m, hm, hl⟩ :=
      dir_sizes_load_spec.1 (bs "100 1700000000 a%20b\nbad\n7 5 a%20b x\n") (by decide)
    rw [hm]
    exact hl (bs "a b")
  · exact dir_sizes_load_spec.2 ⟨bs "/T"⟩ [] (by decide)

/-- C9 (amended): building a trash info from a parsed metadata record fails
exactly when the `Trash Info` section is missing, the `Path` entry is
missing, the path does not percent-decode, the `DeletionDate` entry is
missing, or the timestamp is not accepted by chrono's `NaiveDateTime` parser
(which accepts the fixed pattern `YYYY-MM-DDTHH:MM:SS` among a wider
ISO-8601-like family); otherwise it succeeds with the percent-decoded path
and the parsed timestamp. -/
theorem trashinfo_decode_spec :
    (∀ (ini : Ini) (sec : IniProps) (pe pd de : List Nat) (dt : NaiveDateTime),
      iniSection ini sectionTrashInfo = some sec →
      propsGet sec entryPath = some pe →
      pctDecode pe = some pd →
      propsGet sec entryDeletionDate = some de →
      parseDateTimeChrono de = some dt →
      trashInfoFromIni ini = some ⟨pd, dt⟩) ∧
    (∀ ini : Ini, trashInfoFromIni ini = none ↔
      iniSection ini sectionTrashInfo = none ∨
      ∃ sec, iniSection ini sectionTrashInfo = some sec ∧
        (propsGet sec entryPath = none ∨
         (∃ pe, propsGet sec entryPath = some pe ∧ pctDecode pe = none) ∨
         propsGet sec entryDeletionDate = none ∨
         (∃ de, propsGet sec entryDeletionDate = some de ∧
           parseDateTimeChrono de = none))) := by
  constructor
  · intro ini sec pe pd de dt h1 h2 h3 h4 h5
    simp [trashInfoFromIni, h1, h2, h3, h4, h5]
  · intro ini
    unfold trashInfoFromIni
    cases h1 : iniSection ini sectionTrashInfo with
    | none => simp [h1]
    | some sec =>
      cases h2 : propsGet sec entryPath with
      | none => simp [h2]
      | some pe =>
        cases h3 : pctDecode pe with
        | none => simp [h2, h3]
        | some pd =>
          cases h4 : propsGet sec entryDeletionDate with
          | none => simp [h2, h3, h4]
          | some de =>
            cases h5 : parseDateTimeChrono de with
            | none => simp [h2, h3, h4, h5]
            | some dt => simp [h2, h3, h4, h5]

/-- Witness for C9: a concrete parsed record with an encoded space in the
path decodes to the expected trash info. -/
theorem trashinfo_decode_spec_witness :
    trashInfoFromIni
        [(some (bs "Trash Info"),
          [(bs "Path", bs "%2Fa%20b"), (bs "DeletionDate", bs "2025-02-17T13:14:15")])] =
      some ⟨bs "/a b", ⟨2025, 2, 17, 13, 14, 15⟩⟩ :=
  trashinfo_decode_spec.1
    [(some (bs "Trash Info"),
      [(bs "Path", bs "%2Fa%20b"), (bs "DeletionDate", bs "2025-02-17T13:14:15")])]
    [(bs "Path", bs "%2Fa%20b"), (bs "DeletionDate", bs "2025-02-17T13:14:15")]
    (bs "%2Fa%20b") (bs "/a b") (bs "2025-02-17T13:14:15") ⟨2025, 2, 17, 13, 14, 15⟩
    (by decide) (by decide) (by decide) (by decide) (by decide)

/-- Counterexample to C9 as frozen: the deletion timestamp `2025-2-17T13:14:15`
does not match the fixed pattern `YYYY-MM-DDTHH:MM:SS` (its month has a single
digit), yet the chrono parser the program uses accepts it, so decoding the
record succeeds instead of failing. -/
theorem trashinfo_decode_fixed_pattern_counterexample :
    parseDateTimeBytes (bs "2025-2-17T13:14:15") = none ∧
    trashInfoFromIni
        [(some (bs "Trash Info"),
          [(bs "Path", bs "%2Fa"), (bs "DeletionDate", bs "2025-2-17T13:14:15")])] =
      some ⟨bs "/a", ⟨2025, 2, 17, 13, 14, 15⟩⟩ := by
  exact ⟨by decide, by decide⟩

theorem fromHexDigit_hexDigitUpper (n : Nat) (h : n < 16) :
    fromHexDigit (hexDigitUpper n) = some n := by
  unfold hexDigitUpper fromHexDigit
  split_ifs <;> simp_all <;> omega

theorem pctDecodeBytes_cons_ne (b : Nat) (l : List Nat) (hb : b ≠ 37) :
    pctDecodeBytes (b :: l) = b :: pctDecodeBytes l := by
  match l with
  | [] => simp [pctDecodeBytes]
  | [c] => simp [pctDecodeBytes]
  | c :: d :: t => simp [pctDecodeBytes, hb]

theorem isUnreservedByte_range (b : Nat) (h : isUnreservedByte b = true) :
    45 ≤ b ∧ b ≤ 126 ∧ b ≠ 61 ∧ b ≠ 47 := by
  simp [isUnreservedByte] at h
  omega

theorem pctDecodeBytes_hex (b : Nat) (hb : b < 256) (l : List Nat) :
    pctDecodeBytes (37 :: hexDigitUpper (b / 16) :: hexDigitUpper (b % 16) :: l) =
      b :: pctDecodeBytes l := by
  have h1 : fromHexDigit (hexDigitUpper (b / 16)) = some (b / 16) :=
    fromHexDigit_hexDigitUpper _ (by omega)
  have h2 : fromHexDigit (hexDigitUpper (b % 16)) = some (b % 16) :=
    fromHexDigit_hexDigitUpper _ (by omega)
  simp only [pctDecodeBytes, h1, h2, if_true]
  congr 1
  omega

theorem pctDecodeBytes_pctEncode (l : List Nat) (h : allBytes l = true) :
    pctDecodeBytes (pctEncode l) = l := by
  induction l with
  | nil => rfl
  | cons b rest ih =>
    simp only [allBytes, List.all_cons, Bool.and_eq_true, decide_eq_true_eq] at h
    have hrest := ih (by simp [allBytes, h.2])
    by_cases hu : isUnreservedByte b = true
    · have hb37 : b ≠ 37 := by
        have := isUnreservedByte_range b hu
        omega
      rw [pctEncode, if_pos hu, List.cons_append, List.nil_append,
        pctDecodeBytes_cons_ne b _ hb37, hrest]
    · rw [pctEncode, if_neg hu, List.cons_append, List.cons_append, List.cons_append,
        List.nil_append, pctDecodeBytes_hex b h.1, hrest]

theorem pctDecode_pctEncode (l : List Nat) (hb : allBytes l = true)
    (hv : validUtf8 l = true) : pctDecode (pctEncode l) = some l := by
  unfold pctDecode
  rw [pctDecodeBytes_pctEncode l hb, if_pos hv]

theorem pctEncode_sane (l : List Nat) (h : allBytes l = true) :
    ∀ x ∈ pctEncode l, 37 ≤ x ∧ x ≤ 126 ∧ x ≠ 61 := by
  induction l with
  | nil => simp [pctEncode]
  | cons b rest ih =>
    simp only [allBytes, List.all_cons, Bool.and_eq_true, decide_eq_true_eq] at h
    intro x hx
    rw [pctEncode] at hx
    rcases List.mem_append.1 hx with hx | hx
    · by_cases hu : isUnreservedByte b = true
      · rw [if_pos hu] at hx
        simp only [List.mem_singleton] at hx
        subst hx
        have := isUnreservedByte_range x hu
        omega
      · rw [if_neg hu] at hx
        simp only [List.mem_cons, List.mem_singleton] at hx
        have hd1 : b / 16 < 16 := by omega
        have hd2 : b % 16 < 16 := by omega
        rcases hx with rfl | rfl | rfl | hx
        · omega
        · unfold hexDigitUpper; split_ifs <;> omega
        · unfold hexDigitUpper; split_ifs <;> omega
        · cases hx
    · exact ih (by simp [allBytes, h.2]) x hx

theorem daysInMonth_le (y m : Nat) : daysInMonth y m ≤ 31 := by
  unfold daysInMonth
  split_ifs <;> omega

theorem valid_bounds (t : NaiveDateTime) (h : t.valid = true) :
    t.year ≤ 9999 ∧ t.month ≤ 12 ∧ t.day ≤ 31 ∧ t.hour ≤ 23 ∧
      t.minute ≤ 59 ∧ t.second ≤ 59 := by
  have hd := daysInMonth_le t.year t.month
  simp only [NaiveDateTime.valid, Bool.and_eq_true, decide_eq_true_eq] at h
  omega

theorem formatDateTime_sane (t : NaiveDateTime) (h : t.valid = true) :
    ∀ x ∈ formatDateTime t, 45 ≤ x ∧ x ≤ 84 ∧ x ≠ 61 := by
  obtain ⟨hy, hmo, hd, hh, hmi, hs⟩ := valid_bounds t h
  intro x hx
  simp only [formatDateTime, pad4, pad2, List.mem_append, List.mem_cons,
    List.mem_singleton, List.not_mem_nil, or_false] at hx
  have h1000 : t.year / 1000 ≤ 9 := by omega
  rcases hx with hx | hx | hx | hx | hx | hx <;> omega

theorem dropWhile_eq_self_all (p : Nat → Bool) (l : List Nat)
    (h : ∀ x ∈ l, p x = false) : l.dropWhile p = l := by
  cases l with
  | nil => rfl
  | cons a t =>
    rw [List.dropWhile_cons, h a (by simp)]
    simp

theorem trimBytes_eq_self (l : List Nat) (h : ∀ x ∈ l, isWsByte x = false) :
    trimBytes l = l := by
  unfold trimBytes
  rw [dropWhile_eq_self_all _ l h,
    dropWhile_eq_self_all _ l.reverse (fun x hx => h x (List.mem_reverse.1 hx)),
    List.reverse_reverse]

theorem splitLinesGo_append (l r acc : List Nat) (h : ∀ x ∈ l, x ≠ 10) :
    splitLinesGo acc (l ++ r) = splitLinesGo (l.reverse ++ acc) r := by
  induction l generalizing acc with
  | nil => simp
  | cons b t ih =>
    have hb : b ≠ 10 := h b (by simp)
    rw [List.cons_append, splitLinesGo, if_neg hb,
      ih (b :: acc) (fun x hx => h x (by simp [hx]))]
    simp [List.append_assoc]

theorem splitLinesGo_newline (acc r : List Nat) :
    splitLinesGo acc (10 :: r) = acc.reverse :: splitLinesGo [] r := by
  rw [splitLinesGo, if_pos rfl]

theorem digitVal_48 (k : Nat) (hk : k ≤ 9) : digitVal (48 + k) = some k := by
  unfold digitVal
  rw [if_pos (by omega)]
  congr 1
  omega

theorem parse2_pad2 (n : Nat) (hn : n ≤ 99) (r : List Nat) :
    parse2 (pad2 n ++ r) = some (n, r) := by
  have h1 := digitVal_48 (n / 10) (by omega)
  have h2 := digitVal_48 (n % 10) (by omega)
  simp only [pad2, List.cons_append, List.nil_append, parse2, h1, h2]
  congr 2
  omega

theorem parse4_pad4 (n : Nat) (hn : n ≤ 9999) (r : List Nat) :
    parse4 (pad4 n ++ r) = some (n, r) := by
  have h1 := digitVal_48 (n / 1000) (by omega)
  have h2 := digitVal_48 (n / 100 % 10) (by omega)
  have h3 := digitVal_48 (n / 10 % 10) (by omega)
  have h4 := digitVal_48 (n % 10) (by omega)
  simp only [pad4, List.cons_append, List.nil_append, parse4, h1, h2, h3, h4]
  congr 2
  omega

theorem parse2_pad2_nil (n : Nat) (hn : n ≤ 99) :
    parse2 (pad2 n) = some (n, []) := by
  have h := parse2_pad2 n hn []
  simpa using h

theorem expectByte_cons (c : Nat) (r : List Nat) : expectByte c (c :: r) = some r := by
  rw [expectByte, if_pos rfl]

theorem parseDateTimeBytes_formatDateTime (t : NaiveDateTime) (h : t.valid = true) :
    parseDateTimeBytes (formatDateTime t) = some t := by
  obtain ⟨hy, hmo, hd, hh, hmi, hs⟩ := valid_bounds t h
  simp only [formatDateTime, parseDateTimeBytes, parse4_pad4 t.year hy,
    Option.bind_eq_bind, Option.some_bind, expectByte_cons,
    parse2_pad2 t.month (by omega), parse2_pad2 t.day (by omega),
    parse2_pad2 t.hour (by omega), parse2_pad2 t.minute (by omega),
    parse2_pad2_nil t.second (by omega)]
  simp [h]

theorem isWsByte_false_of_ge (x : Nat) (h : 37 ≤ x) : isWsByte x = false := by
  simp [isWsByte]
  omega

theorem scanDigits_zero (acc cnt : Nat) (l : List Nat) :
    scanDigits 0 acc cnt l = (acc, cnt, l) := rfl

theorem scanDigits_digit (m acc cnt b : Nat) (r : List Nat)
    (hb : isDigitByte b = true) :
    scanDigits (m + 1) acc cnt (b :: r) =
      scanDigits m (acc * 10 + (b - 48)) (cnt + 1) r := by
  simp [scanDigits, hb]

theorem isDigitByte_48 (k : Nat) (hk : k ≤ 9) : isDigitByte (48 + k) = true := by
  simp only [isDigitByte, Bool.and_eq_true, decide_eq_true_eq]
  omega

theorem scanNumber_pad2 (n : Nat) (hn : n ≤ 99) (r : List Nat) :
    scanNumber 2 (pad2 n ++ r) = some (n, r) := by
  have h1 := isDigitByte_48 (n / 10) (by omega)
  have h2 := isDigitByte_48 (n % 10) (by omega)
  simp only [scanNumber, pad2, List.cons_append, List.nil_append,
    scanDigits_digit _ _ _ _ _ h1, scanDigits_digit _ _ _ _ _ h2, scanDigits_zero]
  have he : (0 * 10 + (48 + n / 10 - 48)) * 10 + (48 + n % 10 - 48) = n := by omega
  rw [he]

theorem scanNumber_pad4 (n : Nat) (hn : n ≤ 9999) (r : List Nat) :
    scanNumber 4 (pad4 n ++ r) = some (n, r) := by
  have h1 := isDigitByte_48 (n / 1000) (by omega)
  have h2 := isDigitByte_48 (n / 100 % 10) (by omega)
  have h3 := isDigitByte_48 (n / 10 % 10) (by omega)
  have h4 := isDigitByte_48 (n % 10) (by omega)
  simp only [scanNumber, pad4, List.cons_append, List.nil_append,
    scanDigits_digit _ _ _ _ _ h1, scanDigits_digit _ _ _ _ _ h2,
    scanDigits_digit _ _ _ _ _ h3, scanDigits_digit _ _ _ _ _ h4, scanDigits_zero]
  have he : (((0 * 10 + (48 + n / 1000 - 48)) * 10 + (48 + n / 100 % 10 - 48)) * 10 +
      (48 + n / 10 % 10 - 48)) * 10 + (48 + n % 10 - 48) = n := by omega
  rw [he]

theorem scanNumber_pad2_nil (n : Nat) (hn : n ≤ 99) :
    scanNumber 2 (pad2 n) = some (n, []) := by
  have h := scanNumber_pad2 n hn []
  simpa using h

theorem skipWs_cons (b : Nat) (r : List Nat) (hb : isWsByte b = false) :
    skipWs (b :: r) = b :: r := by
  rw [skipWs, List.dropWhile_cons, hb]
  simp

theorem skipWs_pad2 (n : Nat) (r : List Nat) : skipWs (pad2 n ++ r) = pad2 n ++ r := by
  have h := skipWs_cons (48 + n / 10) ((48 + n % 10) :: r)
    (isWsByte_false_of_ge _ (by omega))
  simpa [pad2] using h

theorem skipWs_pad4 (n : Nat) (r : List Nat) : skipWs (pad4 n ++ r) = pad4 n ++ r := by
  have h := skipWs_cons (48 + n / 1000)
    ((48 + n / 100 % 10) :: (48 + n / 10 % 10) :: (48 + n % 10) :: r)
    (isWsByte_false_of_ge _ (by omega))
  simpa [pad4] using h

theorem skipWs_pad2_nil (n : Nat) : skipWs (pad2 n) = pad2 n := by
  have h := skipWs_pad2 n []
  simpa using h

theorem scanYear_pad4 (n : Nat) (hn : n ≤ 9999) (r : List Nat) :
    scanYear (pad4 n ++ r) = some (false, n, r) := by
  have h45 : ¬(48 + n / 1000 = 45) := by omega
  have h43 : ¬(48 + n / 1000 = 43) := by omega
  have h := scanNumber_pad4 n hn r
  simp only [pad4, List.cons_append, List.nil_append] at h ⊢
  simp only [scanYear, if_neg h45, if_neg h43, h, Option.map_some']

set_option maxHeartbeats 1000000 in
theorem parseDateTimeChrono_formatDateTime (t : NaiveDateTime) (h : t.valid = true) :
    parseDateTimeChrono (formatDateTime t) = some t := by
  obtain ⟨hy, hmo, hd31, hh, hmi, hs⟩ := valid_bounds t h
  have hv := h
  simp only [NaiveDateTime.valid, Bool.and_eq_true, decide_eq_true_eq] at hv
  obtain ⟨⟨⟨⟨⟨⟨⟨hvy, hvmo1⟩, hvmo2⟩, hvd1⟩, hvd2⟩, hvh⟩, hvmi⟩, hvs⟩ := hv
  have hws45 : ∀ r : List Nat, skipWs (45 :: r) = 45 :: r :=
    fun r => skipWs_cons 45 r (by decide)
  have hws84 : ∀ r : List Nat, skipWs (84 :: r) = 84 :: r :=
    fun r => skipWs_cons 84 r (by decide)
  have hws58 : ∀ r : List Nat, skipWs (58 :: r) = 58 :: r :=
    fun r => skipWs_cons 58 r (by decide)
  have hwsnil : skipWs ([] : List Nat) = [] := rfl
  have hfracnil : scanFrac ([] : List Nat) = some [] := rfl
  simp only [formatDateTime, parseDateTimeChrono, skipWs_pad4,
    scanYear_pad4 t.year hy, Option.bind_eq_bind, Option.some_bind,
    hws45, hws84, hws58, expectByte_cons, skipWs_pad2, skipWs_pad2_nil,
    scanNumber_pad2 t.month (by omega), scanNumber_pad2 t.day (by omega),
    scanNumber_pad2 t.hour (by omega), scanNumber_pad2 t.minute (by omega),
    scanNumber_pad2_nil t.second (by omega), hfracnil, hwsnil]
  simp [show t.year ≤ 262143 by omega, show 1 ≤ t.month from hvmo1,
    show t.month ≤ 12 from hvmo2, show 1 ≤ t.day from hvd1,
    show t.day ≤ daysInMonth t.year t.month from hvd2,
    show t.hour ≤ 23 from hvh, show t.minute ≤ 59 from hvmi,
    show t.second ≤ 59 from hvs, show ¬t.second = 60 by omega]

theorem splitLines_encodeTrashInfo (info : TrashInfo) (hb : allBytes info.path = true)
    (hv : info.deletionTime.valid = true) :
    splitLines (encodeTrashInfo info) =
      [91 :: (sectionTrashInfo ++ [93]),
       entryPath ++ (61 :: pctEncode info.path),
       entryDeletionDate ++ (61 :: formatDateTime info.deletionTime),
       []] := by
  have hE := pctEncode_sane info.path hb
  have hF := formatDateTime_sane info.deletionTime hv
  have hL1 : ∀ x ∈ 91 :: (sectionTrashInfo ++ [93]), x ≠ 10 := by decide
  have hPne : ∀ x ∈ entryPath, x ≠ 10 := by decide
  have hDne : ∀ x ∈ entryDeletionDate, x ≠ 10 := by decide
  have hL2 : ∀ x ∈ entryPath ++ (61 :: pctEncode info.path), x ≠ 10 := by
    intro x hx
    rcases List.mem_append.1 hx with hx | hx
    · exact hPne x hx
    · rcases List.mem_cons.1 hx with rfl | hx
      · omega
      · have := hE x hx
        omega
  have hL3 : ∀ x ∈ entryDeletionDate ++ (61 :: formatDateTime info.deletionTime),
      x ≠ 10 := by
    intro x hx
    rcases List.mem_append.1 hx with hx | hx
    · exact hDne x hx
    · rcases List.mem_cons.1 hx with rfl | hx
      · omega
      · have := hF x hx
        omega
  unfold splitLines encodeTrashInfo
  rw [splitLinesGo_append _ _ _ hL1, splitLinesGo_newline,
    splitLinesGo_append _ _ _ hL2, splitLinesGo_newline,
    splitLinesGo_append _ _ _ hL3, splitLinesGo_newline]
  simp [splitLinesGo]

theorem parseIniLine_section :
    parseIniLine (91 :: (sectionTrashInfo ++ [93])) = IniLine.sec sectionTrashInfo := by
  decide

theorem parseIniLine_empty : parseIniLine [] = IniLine.skip := by decide

theorem parseIniLine_path (E : List Nat) (hE : ∀ x ∈ E, 37 ≤ x ∧ x ≤ 126 ∧ x ≠ 61) :
    parseIniLine (entryPath ++ (61 :: E)) = IniLine.kv entryPath E := by
  have hP : entryPath ++ (61 :: E) = 80 :: (97 :: (116 :: (104 :: (61 :: E)))) := by
    have h : entryPath = [80, 97, 116, 104] := by decide
    rw [h]
    rfl
  have hws : ∀ x ∈ 80 :: (97 :: (116 :: (104 :: (61 :: E)))), isWsByte x = false := by
    intro x hx
    simp only [List.mem_cons] at hx
    rcases hx with rfl | rfl | rfl | rfl | rfl | hx
    · decide
    · decide
    · decide
    · decide
    · decide
    · exact isWsByte_false_of_ge x (hE x hx).1
  have hwsE : ∀ x ∈ E, isWsByte x = false :=
    fun x hx => isWsByte_false_of_ge x (hE x hx).1
  have h61 : ∀ x ∈ E, (x == 61) = false := by
    intro x hx
    simpa using (hE x hx).2.2
  rw [hP]
  unfold parseIniLine
  rw [trimBytes_eq_self _ hws]
  simp only [splitFirst]
  norm_num
  rw [trimBytes_eq_self _ hwsE]
  constructor
  · decide
  · rfl

theorem parseIniLine_date (F : List Nat) (hF : ∀ x ∈ F, 45 ≤ x ∧ x ≤ 84 ∧ x ≠ 61) :
    parseIniLine (entryDeletionDate ++ (61 :: F)) = IniLine.kv entryDeletionDate F := by
  have hP : entryDeletionDate ++ (61 :: F) =
      68 :: (101 :: (108 :: (101 :: (116 :: (105 :: (111 :: (110 :: (68 :: (97 ::
        (116 :: (101 :: (61 :: F)))))))))))) := by
    have h : entryDeletionDate = [68, 101, 108, 101, 116, 105, 111, 110, 68, 97, 116, 101] := by
      decide
    rw [h]
    rfl
  have hws : ∀ x ∈ 68 :: (101 :: (108 :: (101 :: (116 :: (105 :: (111 :: (110 :: (68 ::
      (97 :: (116 :: (101 :: (61 :: F)))))))))))), isWsByte x = false := by
    intro x hx
    simp only [List.mem_cons] at hx
    rcases hx with rfl | rfl | rfl | rfl | rfl | rfl | rfl | rfl | rfl | rfl | rfl | rfl
      | rfl | hx
    all_goals first
      | decide
      | exact isWsByte_false_of_ge x (by have := hF x hx; omega)
  have hwsF : ∀ x ∈ F, isWsByte x = false :=
    fun x hx => isWsByte_false_of_ge x (by have := hF x hx; omega)
  rw [hP]
  unfold parseIniLine
  rw [trimBytes_eq_self _ hws]
  simp only [splitFirst]
  norm_num
  rw [trimBytes_eq_self _ hwsF]
  constructor
  · decide
  · rfl

theorem parseIni_encodeTrashInfo (info : TrashInfo) (hb : allBytes info.path = true)
    (hv : info.deletionTime.valid = true) :
    parseIni (encodeTrashInfo info) =
      some [(some sectionTrashInfo,
        [(entryPath, pctEncode info.path),
         (entryDeletionDate, formatDateTime info.deletionTime)])] := by
  have hE := pctEncode_sane info.path hb
  have hF := formatDateTime_sane info.deletionTime hv
  unfold parseIni
  rw [splitLines_encodeTrashInfo info hb hv]
  simp only [parseIniGo, parseIniLine_section, parseIniLine_path _ hE,
    parseIniLine_date _ hF, parseIniLine_empty, addSection, addProp]
  norm_num

/-- C3: encoding a record (path and second-precision deletion time) to
metadata-record bytes and decoding those bytes yields back exactly the
original path and deletion time, for every path whose bytes are valid UTF-8
(including paths with characters that require percent-encoding) and every
valid timestamp. -/
theorem trashinfo_roundtrip (info : TrashInfo) (hb : allBytes info.path = true)
    (hutf : validUtf8 info.path = true) (hv : info.deletionTime.valid = true) :
    decodeTrashInfo (encodeTrashInfo info) = some info := by
  unfold decodeTrashInfo
  rw [parseIni_encodeTrashInfo info hb hv, Option.some_bind']
  unfold trashInfoFromIni
  have hne : (entryDeletionDate == entryPath) = false := by decide
  simp only [iniSection, propsGet, List.lookup_cons, beq_self_eq_true, hne,
    Option.bind_eq_bind, Option.some_bind, pctDecode_pctEncode info.path hb hutf,
    parseDateTimeChrono_formatDateTime info.deletionTime hv]

/-- Witness for C3: a concrete record whose path contains a space and a
slash, both requiring percent-encoding. -/
theorem trashinfo_roundtrip_witness :
    allBytes (bs "/tmp/a b.txt") = true ∧ validUtf8 (bs "/tmp/a b.txt") = true ∧
    NaiveDateTime.valid ⟨2025, 2, 17, 13, 14, 15⟩ = true ∧
    decodeTrashInfo (encodeTrashInfo ⟨bs "/tmp/a b.txt", ⟨2025, 2, 17, 13, 14, 15⟩⟩) =
      some ⟨bs "/tmp/a b.txt", ⟨2025, 2, 17, 13, 14, 15⟩⟩ :=
  ⟨by decide, by decide, by decide,
   trashinfo_roundtrip ⟨bs "/tmp/a b.txt", ⟨2025, 2, 17, 13, 14, 15⟩⟩
     (by decide) (by decide) (by decide)⟩

theorem lookup_append_none {α β : Type} [BEq α] (l1 l2 : List (α × β)) (k : α)
    (h : l1.lookup k = none) : (l1 ++ l2).lookup k = l2.lookup k := by
  induction l1 with
  | nil => rfl
  | cons e rest ih =>
    obtain ⟨k', v⟩ := e
    rw [List.lookup_cons] at h
    rw [List.cons_append, List.lookup_cons]
    cases hbeq : k == k' <;> simp [hbeq] at h ⊢
    · exact ih h

theorem lookup_append_some {α β : Type} [BEq α] (l1 l2 : List (α × β)) (k : α) (v : β)
    (h : l1.lookup k = some v) : (l1 ++ l2).lookup k = some v := by
  induction l1 with
  | nil => simp [List.lookup] at h
  | cons e rest ih =>
    obtain ⟨k', v'⟩ := e
    rw [List.lookup_cons] at h
    rw [List.cons_append, List.lookup_cons]
    cases hbeq : k == k' <;> simp [hbeq] at h ⊢
    · exact ih h
    · exact h

theorem resolveNode_succ (fs : FS) (n : Nat) (p : FsPath) :
    resolveNode fs (n + 1) p =
      match fs.lookup p with
      | some (Node.symlink t _) => resolveNode fs n t
      | o => o := rfl

theorem readFileF_resolve (fs : FS) (p : FsPath) (content : List Nat)
    (h : readFileF fs p = some content) :
    ∃ m, resolveNode fs linkFuel p = some (Node.file content m) := by
  unfold readFileF at h
  cases hr : resolveNode fs linkFuel p with
  | none => rw [hr] at h; cases h
  | some n =>
    cases n with
    | file c m =>
      rw [hr] at h
      simp at h
      subst h
      exact ⟨m, rfl⟩
    | dir m => rw [hr] at h; cases h
    | symlink tgt m => rw [hr] at h; cases h

theorem pathExists_of_readFileF (fs : FS) (p : FsPath) (content : List Nat)
    (h : readFileF fs p = some content) : pathExists fs p = true := by
  obtain ⟨m, hm⟩ := readFileF_resolve fs p content h
  unfold pathExists
  rw [hm]
  rfl

theorem lookup_of_readFileF (fs : FS) (p : FsPath) (content : List Nat)
    (h : readFileF fs p = some content) :
    (∃ m, fs.lookup p = some (Node.file content m)) ∨
    (∃ tgt m, fs.lookup p = some (Node.symlink tgt m)) := by
  obtain ⟨m, hm⟩ := readFileF_resolve fs p content h
  rw [show linkFuel = 39 + 1 from rfl, resolveNode_succ] at hm
  cases hl : fs.lookup p with
  | none => rw [hl] at hm; cases hm
  | some n =>
    cases n with
    | file c m' => rw [hl] at hm; simp at hm; exact Or.inl ⟨m', by rw [hm.1]⟩
    | dir m' => rw [hl] at hm; cases hm
    | symlink tgt m' => exact Or.inr ⟨tgt, m', rfl⟩

theorem isUnder_trans_suffix (src q : FsPath) (h : isUnder src q = true) :
    ∃ tail, q = src ++ 47 :: tail := by
  unfold isUnder at h
  obtain ⟨tail, ht⟩ := List.isPrefixOf_iff_prefix.1 h
  exact ⟨tail, by rw [← ht, List.append_assoc]; rfl⟩

theorem lookup_filter_excluded {α β : Type} [BEq α] [LawfulBEq α]
    (m : List (α × β)) (p : α × β → Bool) (k : α)
    (h : ∀ v, p (k, v) = false) : (m.filter p).lookup k = none := by
  induction m with
  | nil => rfl
  | cons e rest ih =>
    obtain ⟨k', v'⟩ := e
    by_cases hk : k = k'
    · subst hk
      simp only [List.filter_cons, h v', Bool.false_eq_true, if_false]
      exact ih
    · cases hp : p (k', v') <;>
        simp [List.filter_cons, hp, List.lookup_cons, beq_false_of_ne hk, ih]

theorem isUnder_self_false (p : FsPath) : isUnder p p = false := by
  unfold isUnder
  cases h : List.isPrefixOf (p ++ [47]) p with
  | false => rfl
  | true =>
    have := (List.isPrefixOf_iff_prefix.1 h).length_le
    simp at this

theorem renameFS_moved_lookup_none (fs : FS) (src dst q : FsPath)
    (h3 : q ≠ dst) (h4 : isUnder dst q = false) :
    (fs.filterMap (fun e =>
      if e.fst == src then some (dst, e.snd)
      else if isUnder src e.fst then some (dst ++ e.fst.drop src.length, e.snd)
      else none)).lookup q = none := by
  induction fs with
  | nil => rfl
  | cons e rest ih =>
    rw [List.filterMap_cons]
    by_cases h1 : (e.fst == src) = true
    · rw [if_pos h1]
      simp only [List.lookup_cons, beq_false_of_ne h3]
      exact ih
    · rw [if_neg (by simp_all)]
      by_cases h2 : isUnder src e.fst = true
      · rw [if_pos h2]
        obtain ⟨tail, htail⟩ := isUnder_trans_suffix src e.fst h2
        have hkey : e.fst.drop src.length = 47 :: tail := by
          rw [htail, List.drop_left]
        have hqk : q ≠ dst ++ e.fst.drop src.length := by
          rw [hkey]
          intro he
          have hu : isUnder dst q = true := by
            unfold isUnder
            rw [he]
            exact List.isPrefixOf_iff_prefix.2 ⟨tail, by rw [List.append_assoc]; rfl⟩
          rw [hu] at h4
          cases h4
        simp only [List.lookup_cons, beq_false_of_ne hqk]
        exact ih
      · rw [if_neg h2]
        exact ih

theorem renameFS_lookup_preserved (fs : FS) (src dst q : FsPath)
    (h1 : q ≠ src) (h2 : isUnder src q = false)
    (h3 : q ≠ dst) (h4 : isUnder dst q = false) :
    (renameFS fs src dst).lookup q = fs.lookup q := by
  unfold renameFS
  rw [lookup_append_none _ _ _ (renameFS_moved_lookup_none fs src dst q h3 h4)]
  exact lookup_filter_of_key fs _ q (fun v => by
    simp [beq_false_of_ne h1, beq_false_of_ne h3, h2, h4])

theorem renameFS_moved_lookup_dst (fs : FS) (src dst : FsPath) :
    (fs.filterMap (fun e =>
      if e.fst == src then some (dst, e.snd)
      else if isUnder src e.fst then some (dst ++ e.fst.drop src.length, e.snd)
      else none)).lookup dst = fs.lookup src := by
  induction fs with
  | nil => rfl
  | cons e rest ih =>
    obtain ⟨k', v'⟩ := e
    rw [List.filterMap_cons]
    by_cases h1 : (k' == src) = true
    · simp only at h1
      rw [if_pos h1]
      have h1' : (src == k') = true := by
        rw [beq_iff_eq] at h1 ⊢
        exact h1.symm
      simp only [List.lookup_cons, beq_self_eq_true, h1']
    · simp only at h1
      rw [if_neg h1]
      have hse : (src == k') = false := by
        refine beq_false_of_ne (fun hc => ?_)
        exact h1 (by rw [beq_iff_eq]; exact hc.symm)
      by_cases h2 : isUnder src k' = true
      · rw [if_pos h2]
        obtain ⟨tail, htail⟩ := isUnder_trans_suffix src k' h2
        have hkey : (k' : FsPath).drop src.length = 47 :: tail := by
          rw [htail, List.drop_left]
        have hb : (dst == dst ++ (k' : FsPath).drop src.length) = false := by
          rw [hkey]
          refine beq_false_of_ne (fun he => ?_)
          have hlen := congrArg List.length he
          simp at hlen
        simp only [List.lookup_cons, hb, hse]
        exact ih
      · rw [if_neg h2]
        simp only [List.lookup_cons, hse]
        exact ih

theorem renameFS_lookup_dst (fs : FS) (src dst : FsPath) :
    (renameFS fs src dst).lookup dst = fs.lookup src := by
  unfold renameFS
  cases hl : fs.lookup src with
  | none =>
    rw [lookup_append_none _ _ _ (by rw [renameFS_moved_lookup_dst fs src dst]; exact hl)]
    rw [lookup_filter_excluded fs _ dst (fun v => by simp [isUnder_self_false])]
  | some n =>
    exact lookup_append_some _ _ _ _
      (by rw [renameFS_moved_lookup_dst fs src dst]; exact hl)

theorem infoDir_normal (t : Trash) (x : List Nat) :
    pjoin t.infoDir x =
      (t.baseDir ++ [47]) ++ (105 :: (110 :: (102 :: (111 :: (47 :: x))))) := by
  unfold pjoin Trash.infoDir
  have h : bs "info" = [105, 110, 102, 111] := by decide
  rw [h]
  simp [pjoin]

theorem filesDir_normal (t : Trash) (x : List Nat) :
    pjoin t.filesDir x =
      (t.baseDir ++ [47]) ++ (102 :: (105 :: (108 :: (101 :: (115 :: (47 :: x)))))) := by
  unfold pjoin Trash.filesDir
  have h : bs "files" = [102, 105, 108, 101, 115] := by decide
  rw [h]
  simp [pjoin]

theorem trashinfoPath_normal (t : Trash) (id : List Nat) :
    trashinfoPath t id =
      (t.baseDir ++ [47]) ++
        (105 :: (110 :: (102 :: (111 :: (47 :: (id ++ 46 :: bs "trashinfo")))))) := by
  unfold trashinfoPath
  exact infoDir_normal t _

theorem append_cons_ne_head (base : FsPath) (c d : Nat) (u v : List Nat) (h : c ≠ d) :
    base ++ c :: u ≠ base ++ d :: v := by
  intro he
  have h2 := List.append_cancel_left he
  simp only [List.cons.injEq] at h2
  exact h h2.1

theorem append_cons_isPrefixOf_false (base : FsPath) (c d : Nat) (u v : List Nat) (h : c ≠ d) :
    (base ++ c :: u).isPrefixOf (base ++ d :: v) = false := by
  have hnp : ¬ (base ++ c :: u <+: base ++ d :: v) := by
    rw [List.prefix_append_right_inj, List.cons_prefix_cons]
    rintro ⟨hcd, -⟩
    exact h hcd
  cases hb : List.isPrefixOf (base ++ c :: u) (base ++ d :: v) with
  | false => rfl
  | true => exact absurd (List.isPrefixOf_iff_prefix.1 hb) hnp

theorem trashinfoPath_ne_filesPath (t : Trash) (a b : List Nat) :
    trashinfoPath t a ≠ pjoin t.filesDir b := by
  rw [trashinfoPath_normal, filesDir_normal]
  exact append_cons_ne_head _ 105 102 _ _ (by omega)

theorem isUnder_files_trashinfo_false (t : Trash) (a b : List Nat) :
    isUnder (pjoin t.filesDir b) (trashinfoPath t a) = false := by
  unfold isUnder
  rw [trashinfoPath_normal, filesDir_normal]
  have hsh : ((t.baseDir ++ [47]) ++
        (102 :: (105 :: (108 :: (101 :: (115 :: (47 :: b))))))) ++ [47] =
      (t.baseDir ++ [47]) ++
        (102 :: (105 :: (108 :: (101 :: (115 :: (47 :: (b ++ [47]))))))) := by
    simp
  rw [hsh]
  exact append_cons_isPrefixOf_false _ 102 105 _ _ (by omega)

/-- C1: when the metadata record of an identifier is readable and decodes,
restore fails leaving the state unchanged if a filesystem entry exists at the
recorded original path, fails unchanged if the payload is missing from the
files directory, and otherwise renames the payload to the original path, then
removes the record file, returning the original path and deletion time. -/
theorem restore_spec (t : Trash) (fs : FS) (id content : List Nat) (info : TrashInfo)
    (hread : readFileF fs (trashinfoPath t id) = some content)
    (hdec : decodeTrashInfo content = some info) :
    (pathExists fs info.path = true →
      restore t fs id = (fs, Except.error RestoreErr.origExists)) ∧
    (pathExists fs info.path = false → pathExists fs (pjoin t.filesDir id) = false →
      restore t fs id = (fs, Except.error RestoreErr.payloadMissing)) ∧
    (pathExists fs info.path = false → pathExists fs (pjoin t.filesDir id) = true →
      isUnder info.path (trashinfoPath t id) = false →
      restore t fs id =
        (FS.del (renameFS fs (pjoin t.filesDir id) info.path) (trashinfoPath t id),
         Except.ok ⟨info.path, info.deletionTime⟩)) := by
  refine ⟨fun horig => ?_, fun horig hpay => ?_, fun horig hpay hual => ?_⟩
  · simp only [restore, hread, hdec, horig, if_true]
  · simp only [restore, hread, hdec, horig, Bool.false_eq_true, if_false, hpay,
      Bool.not_false, if_true]
  · have hexTip : pathExists fs (trashinfoPath t id) = true :=
      pathExists_of_readFileF fs _ content hread
    have htipdst : trashinfoPath t id ≠ info.path := by
      intro he
      rw [← he, hexTip] at horig
      cases horig
    have hpres : (renameFS fs (pjoin t.filesDir id) info.path).lookup
        (trashinfoPath t id) = fs.lookup (trashinfoPath t id) :=
      renameFS_lookup_preserved fs _ _ _
        (trashinfoPath_ne_filesPath t id id)
        (isUnder_files_trashinfo_false t id id)
        htipdst hual
    have hrm : removeFileFS (renameFS fs (pjoin t.filesDir id) info.path)
        (trashinfoPath t id) =
        Except.ok (FS.del (renameFS fs (pjoin t.filesDir id) info.path)
          (trashinfoPath t id)) := by
      unfold removeFileFS
      rw [hpres]
      rcases lookup_of_readFileF fs _ content hread with ⟨m, hm⟩ | ⟨tgt, m, hm⟩ <;>
        rw [hm]
    simp only [restore, hread, hdec, horig, Bool.false_eq_true, if_false, hpay,
      Bool.not_true, hrm]

/-- Witness for C1: a concrete one-item trash where the original path is
free, restore succeeds; the same state with the original path occupied makes
restore fail without touching the state. -/
theorem restore_spec_witness :
    restore ⟨bs "/T"⟩
        [(trashinfoPath ⟨bs "/T"⟩ (bs "doc"), Node.file
           (encodeTrashInfo ⟨bs "/home/u/doc", ⟨2025, 2, 17, 13, 14, 15⟩⟩) 5),
         (pjoin (Trash.filesDir ⟨bs "/T"⟩) (bs "doc"), Node.file (bs "abc") 6)]
        (bs "doc") =
      (FS.del (renameFS
          [(trashinfoPath ⟨bs "/T"⟩ (bs "doc"), Node.file
             (encodeTrashInfo ⟨bs "/home/u/doc", ⟨2025, 2, 17, 13, 14, 15⟩⟩) 5),
           (pjoin (Trash.filesDir ⟨bs "/T"⟩) (bs "doc"), Node.file (bs "abc") 6)]
          (pjoin (Trash.filesDir ⟨bs "/T"⟩) (bs "doc")) (bs "/home/u/doc"))
        (trashinfoPath ⟨bs "/T"⟩ (bs "doc")),
       Except.ok ⟨bs "/home/u/doc", ⟨2025, 2, 17, 13, 14, 15⟩⟩) ∧
    restore ⟨bs "/T"⟩
        [(bs "/home/u/doc", Node.file (bs "x") 9),
         (trashinfoPath ⟨bs "/T"⟩ (bs "doc"), Node.file
           (encodeTrashInfo ⟨bs "/home/u/doc", ⟨2025, 2, 17, 13, 14, 15⟩⟩) 5),
         (pjoin (Trash.filesDir ⟨bs "/T"⟩) (bs "doc"), Node.file (bs "abc") 6)]
        (bs "doc") =
      ([(bs "/home/u/doc", Node.file (bs "x") 9),
        (trashinfoPath ⟨bs "/T"⟩ (bs "doc"), Node.file
          (encodeTrashInfo ⟨bs "/home/u/doc", ⟨2025, 2, 17, 13, 14, 15⟩⟩) 5),
        (pjoin (Trash.filesDir ⟨bs "/T"⟩) (bs "doc"), Node.file (bs "abc") 6)],
       Except.error RestoreErr.origExists) := by
  constructor
  · exact (restore_spec ⟨bs "/T"⟩ _ (bs "doc")
      (encodeTrashInfo ⟨bs "/home/u/doc", ⟨2025, 2, 17, 13, 14, 15⟩⟩)
      ⟨bs "/home/u/doc", ⟨2025, 2, 17, 13, 14, 15⟩⟩ (by decide) (by decide)).2.2
      (by decide) (by decide) (by decide)
  · exact (restore_spec ⟨bs "/T"⟩ _ (bs "doc")
      (encodeTrashInfo ⟨bs "/home/u/doc", ⟨2025, 2, 17, 13, 14, 15⟩⟩)
      ⟨bs "/home/u/doc", ⟨2025, 2, 17, 13, 14, 15⟩⟩ (by decide) (by decide)).1
      (by decide)

theorem lookup_del_ne (fs : FS) (p q : FsPath) (h : q ≠ p) :
    (FS.del fs p).lookup q = fs.lookup q :=
  lookup_filter_of_key fs _ q (fun v => by simp [beq_false_of_ne h])

/-- C10: the occupied-original-path guard of restore follows symbolic links:
when the entry at the recorded original path is a symbolic link whose target
does not resolve, restore does not fail with the already-exists error but
succeeds, and the rename replaces the dangling link with the payload node. -/
theorem restore_dangling_symlink (t : Trash) (fs : FS) (id content : List Nat)
    (info : TrashInfo) (tgt : FsPath) (m : Nat)
    (hread : readFileF fs (trashinfoPath t id) = some content)
    (hdec : decodeTrashInfo content = some info)
    (_hlink : fs.lookup info.path = some (Node.symlink tgt m))
    (hdang : pathExists fs info.path = false)
    (hpay : pathExists fs (pjoin t.filesDir id) = true)
    (hual : isUnder info.path (trashinfoPath t id) = false) :
    (restore t fs id).snd = Except.ok ⟨info.path, info.deletionTime⟩ ∧
    FS.get (restore t fs id).fst info.path = fs.lookup (pjoin t.filesDir id) := by
  have hres := (restore_spec t fs id content info hread hdec).2.2 hdang hpay hual
  have hexTip : pathExists fs (trashinfoPath t id) = true :=
    pathExists_of_readFileF fs _ content hread
  have hne : info.path ≠ trashinfoPath t id := by
    intro he
    rw [he, hexTip] at hdang
    cases hdang
  constructor
  · rw [hres]
  · rw [hres]
    unfold FS.get
    rw [lookup_del_ne _ _ _ hne, renameFS_lookup_dst]

/-- Witness for C10: a concrete state with a dangling symbolic link at the
original path; restore succeeds and the link is replaced by the payload. -/
theorem restore_dangling_symlink_witness :
    (restore ⟨bs "/T"⟩
        [(bs "/home/u/doc", Node.symlink (bs "/nx") 9),
         (trashinfoPath ⟨bs "/T"⟩ (bs "doc"), Node.file
           (encodeTrashInfo ⟨bs "/home/u/doc", ⟨2025, 2, 17, 13, 14, 15⟩⟩) 5),
         (pjoin (Trash.filesDir ⟨bs "/T"⟩) (bs "doc"), Node.file (bs "abc") 6)]
        (bs "doc")).snd =
      Except.ok ⟨bs "/home/u/doc", ⟨2025, 2, 17, 13, 14, 15⟩⟩ ∧
    FS.get (restore ⟨bs "/T"⟩
        [(bs "/home/u/doc", Node.symlink (bs "/nx") 9),
         (trashinfoPath ⟨bs "/T"⟩ (bs "doc"), Node.file
           (encodeTrashInfo ⟨bs "/home/u/doc", ⟨2025, 2, 17, 13, 14, 15⟩⟩) 5),
         (pjoin (Trash.filesDir ⟨bs "/T"⟩) (bs "doc"), Node.file (bs "abc") 6)]
        (bs "doc")).fst (bs "/home/u/doc") =
      List.lookup (pjoin (Trash.filesDir ⟨bs "/T"⟩) (bs "doc"))
        [(bs "/home/u/doc", Node.symlink (bs "/nx") 9),
         (trashinfoPath ⟨bs "/T"⟩ (bs "doc"), Node.file
           (encodeTrashInfo ⟨bs "/home/u/doc", ⟨2025, 2, 17, 13, 14, 15⟩⟩) 5),
         (pjoin (Trash.filesDir ⟨bs "/T"⟩) (bs "doc"), Node.file (bs "abc") 6)] :=
  restore_dangling_symlink ⟨bs "/T"⟩ _ (bs "doc")
    (encodeTrashInfo ⟨bs "/home/u/doc", ⟨2025, 2, 17, 13, 14, 15⟩⟩)
    ⟨bs "/home/u/doc", ⟨2025, 2, 17, 13, 14, 15⟩⟩ (bs "/nx") 9
    (by decide) (by decide) (by decide) (by decide) (by decide) (by decide)

theorem digitsRev_mem (fuel : Nat) : ∀ (n : Nat), ∀ x ∈ digitsRev fuel n,
    48 ≤ x ∧ x ≤ 57 := by
  induction fuel with
  | zero => intro n x hx; simp [digitsRev] at hx
  | succ f ih =>
    intro n x hx
    rw [digitsRev] at hx
    by_cases hn : n = 0
    · simp [hn] at hx
    · rw [if_neg hn] at hx
      rcases List.mem_cons.1 hx with rfl | hx
      · omega
      · exact ih _ x hx

theorem natDigits_no47 (n : Nat) : ∀ x ∈ natDigits n, x ≠ 47 := by
  unfold natDigits
  by_cases hn : n = 0 <;> intro x hx
  · rw [if_pos hn] at hx
    simp at hx
    omega
  · rw [if_neg hn] at hx
    have := digitsRev_mem n n x (List.mem_reverse.1 hx)
    omega

theorem candidateId_no47 (base : List Nat) (n : Nat) (h : ∀ x ∈ base, x ≠ 47) :
    ∀ x ∈ candidateId base n, x ≠ 47 := by
  unfold candidateId
  by_cases hn : n = 0
  · rw [if_pos hn]; exact h
  · rw [if_neg hn]
    intro x hx
    rcases List.mem_append.1 hx with hx | hx
    · exact h x hx
    · rcases List.mem_cons.1 hx with rfl | hx
      · omega
      · exact natDigits_no47 n x hx

theorem recordName_no47 (id : List Nat) (h : ∀ x ∈ id, x ≠ 47) :
    ∀ x ∈ id ++ 46 :: bs "trashinfo", x ≠ 47 := by
  have hext : ∀ x ∈ bs "trashinfo", x ≠ 47 := by decide
  intro x hx
  rcases List.mem_append.1 hx with hx | hx
  · exact h x hx
  · rcases List.mem_cons.1 hx with rfl | hx
    · omega
    · exact hext x hx

theorem dropWhile_append_all (p : Nat → Bool) (l r : List Nat)
    (h : ∀ x ∈ l, p x = true) : (l ++ r).dropWhile p = r.dropWhile p := by
  induction l with
  | nil => rfl
  | cons a tl ih =>
    rw [List.cons_append, List.dropWhile_cons, h a (by simp), if_pos rfl]
    exact ih (fun x hx => h x (by simp [hx]))

theorem parentOf_pjoin (d : FsPath) (n : List Nat) (h : ∀ x ∈ n, x ≠ 47) :
    parentOf (pjoin d n) = d := by
  unfold parentOf pjoin
  have hrev : (d ++ 47 :: n).reverse = n.reverse ++ (47 :: d.reverse) := by simp
  rw [hrev, dropWhile_append_all _ _ _ (fun x hx => by
    have := h x (List.mem_reverse.1 hx)
    simp [this])]
  rw [List.dropWhile_cons]
  simp

theorem createNew_free (fs : FS) (tip : FsPath) (mt dm : Nat)
    (hfree : fs.lookup tip = none)
    (hparent : resolveNode fs linkFuel (parentOf tip) = some (Node.dir dm)) :
    createNew fs tip mt = Except.ok (FS.set fs tip (Node.file [] mt)) := by
  unfold createNew
  rw [hfree, hparent]

theorem createNew_taken (fs : FS) (tip : FsPath) (mt : Nat) (n : Node)
    (h : fs.lookup tip = some n) :
    createNew fs tip mt = Except.error CreateErr.alreadyExists := by
  unfold createNew
  rw [h]

theorem createNew_other (fs : FS) (tip : FsPath) (mt : Nat)
    (hfree : fs.lookup tip = none)
    (hnodir : ∀ dm, resolveNode fs linkFuel (parentOf tip) ≠ some (Node.dir dm)) :
    createNew fs tip mt = Except.error CreateErr.otherErr := by
  unfold createNew
  rw [hfree]
  cases hres : resolveNode fs linkFuel (parentOf tip) with
  | none => rfl
  | some node =>
    cases node with
    | file c m => rfl
    | dir m => exact absurd hres (hnodir m)
    | symlink tgt m => rfl

theorem allocGo_other_aborts (t : Trash) (base : List Nat) (mt : Nat) :
    ∀ (fuel n : Nat) (fs : FS), 0 < fuel →
      fs.lookup (trashinfoPath t (candidateId base n)) = none →
      (∀ dm, resolveNode fs linkFuel
        (parentOf (trashinfoPath t (candidateId base n))) ≠ some (Node.dir dm)) →
      allocGo t base fuel n fs mt = Except.error () := by
  intro fuel n fs hfuel hfree hnodir
  cases fuel with
  | zero => omega
  | succ f => rw [allocGo, createNew_other fs _ mt hfree hnodir]

theorem allocGo_first_free (t : Trash) (base : List Nat) (mt : Nat)
    (hb : ∀ x ∈ base, x ≠ 47) :
    ∀ (k fuel n : Nat) (fs : FS) (dm : Nat),
      k < fuel →
      (∀ i, i < k → fs.lookup (trashinfoPath t (candidateId base (n + i))) ≠ none) →
      fs.lookup (trashinfoPath t (candidateId base (n + k))) = none →
      resolveNode fs linkFuel t.infoDir = some (Node.dir dm) →
      allocGo t base fuel n fs mt =
        Except.ok (candidateId base (n + k),
          FS.set fs (trashinfoPath t (candidateId base (n + k))) (Node.file [] mt)) := by
  intro k
  induction k with
  | zero =>
    intro fuel n fs dm hk _ hfree hdir
    cases fuel with
    | zero => omega
    | succ f =>
      have hpar : parentOf (trashinfoPath t (candidateId base n)) = t.infoDir :=
        parentOf_pjoin _ _ (recordName_no47 _ (candidateId_no47 base n hb))
      rw [Nat.add_zero] at hfree
      rw [allocGo, createNew_free fs _ mt dm hfree (by rw [hpar]; exact hdir)]
      rfl
  | succ k ih =>
    intro fuel n fs dm hk htaken hfree hdir
    cases fuel with
    | zero => omega
    | succ f =>
      have h0 := htaken 0 (by omega)
      rw [Nat.add_zero] at h0
      cases hl : fs.lookup (trashinfoPath t (candidateId base n)) with
      | none => exact absurd hl h0
      | some node =>
        simp only [allocGo, createNew_taken fs _ mt node hl]
        have heq : n + 1 + k = n + (k + 1) := by omega
        have hres := ih f (n + 1) fs dm (by omega)
          (fun i hi => by
            have hti := htaken (i + 1) (by omega)
            rwa [show n + (i + 1) = n + 1 + i from by omega] at hti)
          (by rwa [heq])
          hdir
        rw [heq] at hres
        exact hres

set_option maxRecDepth 4000 in
/-- C2: identifier allocation probes `base`, `base_1`, `base_2`, ... in order
and accepts the first candidate whose metadata-record file can be created
exclusively; a creation failure other than already-exists aborts allocation
with an error; and two sequential put calls for files with the same base name
both succeed, receiving the distinct identifiers `name` and `name_1`. -/
theorem identifier_allocation_spec :
    (∀ (t : Trash) (fs : FS) (p : FsPath) (base : List Nat) (mt k dm : Nat),
      fileNameOf? p = some base →
      (∀ x ∈ base, x ≠ 47) →
      k < 65536 →
      (∀ i, i < k → fs.lookup (trashinfoPath t (candidateId base i)) ≠ none) →
      fs.lookup (trashinfoPath t (candidateId base k)) = none →
      resolveNode fs linkFuel t.infoDir = some (Node.dir dm) →
      openNewTrashinfoFile t fs p mt =
        Except.ok (candidateId base k,
          FS.set fs (trashinfoPath t (candidateId base k)) (Node.file [] mt))) ∧
    (∀ (t : Trash) (fs : FS) (p : FsPath) (base : List Nat) (mt : Nat),
      fileNameOf? p = some base →
      (∀ x ∈ base, x ≠ 47) →
      fs.lookup (trashinfoPath t (candidateId base 0)) = none →
      (∀ dm, resolveNode fs linkFuel t.infoDir ≠ some (Node.dir dm)) →
      openNewTrashinfoFile t fs p mt = Except.error ()) ∧
    ((put ⟨bs "/T"⟩
        [(bs "/d/name", Node.file (bs "a") 1), (bs "/e/name", Node.file (bs "b") 2)]
        ⟨2025, 1, 1, 0, 0, 0⟩ 3 (bs "/d/name")).snd =
      Except.ok (⟨bs "/d/name", ⟨2025, 1, 1, 0, 0, 0⟩⟩, bs "name") ∧
     (put ⟨bs "/T"⟩
        (put ⟨bs "/T"⟩
          [(bs "/d/name", Node.file (bs "a") 1), (bs "/e/name", Node.file (bs "b") 2)]
          ⟨2025, 1, 1, 0, 0, 0⟩ 3 (bs "/d/name")).fst
        ⟨2025, 1, 1, 0, 0, 0⟩ 4 (bs "/e/name")).snd =
      Except.ok (⟨bs "/e/name", ⟨2025, 1, 1, 0, 0, 0⟩⟩, bs "name_1")) := by
  refine ⟨?_, ?_, by decide, by decide⟩
  · intro t fs p base mt k dm hname hb hk htaken hfree hdir
    unfold openNewTrashinfoFile
    rw [hname]
    have h := allocGo_first_free t base mt hb k 65536 0 fs dm hk
      (fun i hi => by simpa using htaken i hi) (by simpa using hfree) hdir
    simpa using h
  · intro t fs p base mt hname hb hfree hnodir
    unfold openNewTrashinfoFile
    rw [hname]
    have hpar : parentOf (trashinfoPath t (candidateId base 0)) = t.infoDir :=
      parentOf_pjoin _ _ (recordName_no47 _ (candidateId_no47 base 0 hb))
    show allocGo t base 65536 0 fs mt = Except.error ()
    exact allocGo_other_aborts t base mt 65536 0 fs (by omega) hfree
      (fun dm hres => hnodir dm (by rwa [hpar] at hres))

/-- Witness for C2: allocation on a state where the base identifier is taken
picks `name_1`, and a state whose info directory is a regular file aborts
with an error. -/
theorem identifier_allocation_spec_witness :
    openNewTrashinfoFile ⟨bs "/T"⟩
        [(trashinfoPath ⟨bs "/T"⟩ (bs "name"), Node.file [] 1),
         (Trash.infoDir ⟨bs "/T"⟩, Node.dir 1)]
        (bs "/d/name") 7 =
      Except.ok (candidateId (bs "name") 1,
        FS.set [(trashinfoPath ⟨bs "/T"⟩ (bs "name"), Node.file [] 1),
                (Trash.infoDir ⟨bs "/T"⟩, Node.dir 1)]
          (trashinfoPath ⟨bs "/T"⟩ (candidateId (bs "name") 1)) (Node.file [] 7)) ∧
    openNewTrashinfoFile ⟨bs "/T"⟩ [(Trash.infoDir ⟨bs "/T"⟩, Node.file (bs "x") 1)]
        (bs "/d/name") 7 =
      Except.error () := by
  constructor
  · exact identifier_allocation_spec.1 ⟨bs "/T"⟩ _ (bs "/d/name") (bs "name") 7 1 1
      (by decide) (by decide) (by decide) (by decide) (by decide) (by decide)
  · refine identifier_allocation_spec.2.1 ⟨bs "/T"⟩ _ (bs "/d/name") (bs "name") 7
      (by decide) (by decide) (by decide) (fun dm h => ?_)
    have hc : resolveNode [(Trash.infoDir ⟨bs "/T"⟩, Node.file (bs "x") 1)] linkFuel
        (Trash.infoDir ⟨bs "/T"⟩) = some (Node.file (bs "x") 1) := by decide
    rw [hc] at h
    simp at h

/-- C4: for every enumerated item, the size is resolved as follows: for a
directory payload the cached size is used only when the cached mtime equals
the record file's current modification time, and otherwise the size is 0;
for a regular-file or symbolic-link payload the size is the byte length from
filesystem metadata; entries maps this resolution over every record path. -/
theorem new_entry_size_spec :
    (∀ (t : Trash) (fs : FS) (tip content : List Nat) (tm : Nat) (info : TrashInfo)
       (dm : Nat) (d : DirSize),
      resolveNode fs linkFuel tip = some (Node.file content tm) →
      decodeTrashInfo content = some info →
      FS.get fs (pjoin t.filesDir ((fileNameOf tip).take ((fileNameOf tip).length - 10)))
        = some (Node.dir dm) →
      lookupDS (dirSizesOf t fs) ((fileNameOf tip).take ((fileNameOf tip).length - 10))
        = some d →
      newEntry t fs (dirSizesOf t fs) tip =
        Except.ok ⟨(fileNameOf tip).take ((fileNameOf tip).length - 10), info.path,
          info.deletionTime, if d.mtime = tm then d.size else 0⟩) ∧
    (∀ (t : Trash) (fs : FS) (tip content : List Nat) (tm : Nat) (info : TrashInfo)
       (dm : Nat),
      resolveNode fs linkFuel tip = some (Node.file content tm) →
      decodeTrashInfo content = some info →
      FS.get fs (pjoin t.filesDir ((fileNameOf tip).take ((fileNameOf tip).length - 10)))
        = some (Node.dir dm) →
      lookupDS (dirSizesOf t fs) ((fileNameOf tip).take ((fileNameOf tip).length - 10))
        = none →
      newEntry t fs (dirSizesOf t fs) tip =
        Except.ok ⟨(fileNameOf tip).take ((fileNameOf tip).length - 10), info.path,
          info.deletionTime, 0⟩) ∧
    (∀ (t : Trash) (fs : FS) (tip content : List Nat) (tm : Nat) (info : TrashInfo)
       (c : List Nat) (m : Nat),
      resolveNode fs linkFuel tip = some (Node.file content tm) →
      decodeTrashInfo content = some info →
      FS.get fs (pjoin t.filesDir ((fileNameOf tip).take ((fileNameOf tip).length - 10)))
        = some (Node.file c m) →
      newEntry t fs (dirSizesOf t fs) tip =
        Except.ok ⟨(fileNameOf tip).take ((fileNameOf tip).length - 10), info.path,
          info.deletionTime, c.length⟩) ∧
    (∀ (t : Trash) (fs : FS) (tip content : List Nat) (tm : Nat) (info : TrashInfo)
       (tgt : FsPath) (m : Nat),
      resolveNode fs linkFuel tip = some (Node.file content tm) →
      decodeTrashInfo content = some info →
      FS.get fs (pjoin t.filesDir ((fileNameOf tip).take ((fileNameOf tip).length - 10)))
        = some (Node.symlink tgt m) →
      newEntry t fs (dirSizesOf t fs) tip =
        Except.ok ⟨(fileNameOf tip).take ((fileNameOf tip).length - 10), info.path,
          info.deletionTime, tgt.length⟩) ∧
    (∀ (t : Trash) (fs : FS) (tips : List FsPath),
      trashinfoPathsOf t fs = Except.ok tips →
      entriesOf t fs = Except.ok (tips.map (newEntry t fs (dirSizesOf t fs)))) := by
  refine ⟨?_, ?_, ?_, ?_, ?_⟩
  · intro t fs tip content tm info dm d hres hdec hget hcache
    have hread : readFileF fs tip = some content := by
      unfold readFileF
      rw [hres]
    unfold FS.get at hget
    simp only [newEntry, hread, hdec, hget, mtimeAt, hres, hcache]
    by_cases hmt : d.mtime = tm
    · simp [hmt]
    · simp [hmt, beq_false_of_ne hmt]
  · intro t fs tip content tm info dm hres hdec hget hcache
    have hread : readFileF fs tip = some content := by
      unfold readFileF
      rw [hres]
    unfold FS.get at hget
    simp only [newEntry, hread, hdec, hget, mtimeAt, hres, hcache]
  · intro t fs tip content tm info c m hres hdec hget
    have hread : readFileF fs tip = some content := by
      unfold readFileF
      rw [hres]
    unfold FS.get at hget
    simp only [newEntry, hread, hdec, hget, nodeLen]
  · intro t fs tip content tm info tgt m hres hdec hget
    have hread : readFileF fs tip = some content := by
      unfold readFileF
      rw [hres]
    unfold FS.get at hget
    simp only [newEntry, hread, hdec, hget, nodeLen]
  · intro t fs tips htips
    unfold entriesOf
    rw [htips]
    rfl

/-- Witness for C4: a directory payload with a matching cache entry reports
the cached size, and a regular-file payload reports its byte length. -/
theorem new_entry_size_spec_witness :
    newEntry ⟨bs "/T"⟩
        [(trashinfoPath ⟨bs "/T"⟩ (bs "d"), Node.file
           (encodeTrashInfo ⟨bs "/h/d", ⟨2025, 2, 17, 13, 14, 15⟩⟩) 5),
         (pjoin (Trash.filesDir ⟨bs "/T"⟩) (bs "d"), Node.dir 6),
         (Trash.dsFile ⟨bs "/T"⟩, Node.file (bs "100 5 d\n") 7)]
        (dirSizesOf ⟨bs "/T"⟩
          [(trashinfoPath ⟨bs "/T"⟩ (bs "d"), Node.file
             (encodeTrashInfo ⟨bs "/h/d", ⟨2025, 2, 17, 13, 14, 15⟩⟩) 5),
           (pjoin (Trash.filesDir ⟨bs "/T"⟩) (bs "d"), Node.dir 6),
           (Trash.dsFile ⟨bs "/T"⟩, Node.file (bs "100 5 d\n") 7)])
        (trashinfoPath ⟨bs "/T"⟩ (bs "d")) =
      Except.ok ⟨bs "d", bs "/h/d", ⟨2025, 2, 17, 13, 14, 15⟩, 100⟩ ∧
    newEntry ⟨bs "/T"⟩
        [(trashinfoPath ⟨bs "/T"⟩ (bs "f"), Node.file
           (encodeTrashInfo ⟨bs "/h/f", ⟨2025, 2, 17, 13, 14, 15⟩⟩) 5),
         (pjoin (Trash.filesDir ⟨bs "/T"⟩) (bs "f"), Node.file (bs "abc") 6)]
        (dirSizesOf ⟨bs "/T"⟩
          [(trashinfoPath ⟨bs "/T"⟩ (bs "f"), Node.file
             (encodeTrashInfo ⟨bs "/h/f", ⟨2025, 2, 17, 13, 14, 15⟩⟩) 5),
           (pjoin (Trash.filesDir ⟨bs "/T"⟩) (bs "f"), Node.file (bs "abc") 6)])
        (trashinfoPath ⟨bs "/T"⟩ (bs "f")) =
      Except.ok ⟨bs "f", bs "/h/f", ⟨2025, 2, 17, 13, 14, 15⟩, 3⟩ := by
  constructor
  · have h := new_entry_size_spec.1 ⟨bs "/T"⟩
      [(trashinfoPath ⟨bs "/T"⟩ (bs "d"), Node.file
           (encodeTrashInfo ⟨bs "/h/d", ⟨2025, 2, 17, 13, 14, 15⟩⟩) 5),
         (pjoin (Trash.filesDir ⟨bs "/T"⟩) (bs "d"), Node.dir 6),
         (Trash.dsFile ⟨bs "/T"⟩, Node.file (bs "100 5 d\n") 7)] (trashinfoPath ⟨bs "/T"⟩ (bs "d"))
      (encodeTrashInfo ⟨bs "/h/d", ⟨2025, 2, 17, 13, 14, 15⟩⟩) 5
      ⟨bs "/h/d", ⟨2025, 2, 17, 13, 14, 15⟩⟩ 6 ⟨bs "d", 100, 5⟩
      (by decide) (by decide) (by decide) (by decide)
    rw [h]
    decide
  · exact new_entry_size_spec.2.2.1 ⟨bs "/T"⟩
      [(trashinfoPath ⟨bs "/T"⟩ (bs "f"), Node.file
           (encodeTrashInfo ⟨bs "/h/f", ⟨2025, 2, 17, 13, 14, 15⟩⟩) 5),
         (pjoin (Trash.filesDir ⟨bs "/T"⟩) (bs "f"), Node.file (bs "abc") 6)] (trashinfoPath ⟨bs "/T"⟩ (bs "f"))
      (encodeTrashInfo ⟨bs "/h/f", ⟨2025, 2, 17, 13, 14, 15⟩⟩) 5
      ⟨bs "/h/f", ⟨2025, 2, 17, 13, 14, 15⟩⟩ (bs "abc") 6
      (by decide) (by decide) (by decide)

theorem createNew_ok_shape (fs : FS) (p : FsPath) (mt : Nat) (fs2 : FS)
    (h : createNew fs p mt = Except.ok fs2) :
    fs2 = FS.set fs p (Node.file [] mt) := by
  unfold createNew at h
  cases hl : fs.lookup p with
  | some n => rw [hl] at h; cases h
  | none =>
    rw [hl] at h
    cases hres : resolveNode fs linkFuel (parentOf p) with
    | none => rw [hres] at h; cases h
    | some node =>
      rw [hres] at h
      cases node with
      | file c m => cases h
      | dir m => simp at h; exact h.symm
      | symlink tgt m => cases h

theorem allocGo_ok_shape (t : Trash) (base : List Nat) (mt : Nat) :
    ∀ (fuel n : Nat) (fs fs1 : FS) (id : List Nat),
      allocGo t base fuel n fs mt = Except.ok (id, fs1) →
      fs1 = FS.set fs (trashinfoPath t id) (Node.file [] mt) := by
  intro fuel
  induction fuel with
  | zero =>
    intro n fs fs1 id h
    rw [allocGo] at h
    cases h
  | succ f ih =>
    intro n fs fs1 id h
    rw [allocGo] at h
    cases hc : createNew fs (trashinfoPath t (candidateId base n)) mt with
    | ok fs2 =>
      rw [hc] at h
      simp at h
      obtain ⟨hid, hfs⟩ := h
      subst hid
      rw [← hfs]
      exact createNew_ok_shape fs _ mt fs2 hc
    | error e =>
      rw [hc] at h
      cases e with
      | alreadyExists => exact ih (n + 1) fs fs1 id h
      | otherErr => cases h

theorem openNew_ok_shape (t : Trash) (fs : FS) (p : FsPath) (mt : Nat)
    (id : List Nat) (fs1 : FS)
    (h : openNewTrashinfoFile t fs p mt = Except.ok (id, fs1)) :
    fs1 = FS.set fs (trashinfoPath t id) (Node.file [] mt) := by
  unfold openNewTrashinfoFile at h
  cases hn : fileNameOf? p with
  | none => rw [hn] at h; cases h
  | some base =>
    rw [hn] at h
    exact allocGo_ok_shape t base mt 65536 0 fs fs1 id h

theorem FS.set_set (fs : FS) (p : FsPath) (a b : Node) :
    FS.set (FS.set fs p a) p b = FS.set fs p b := by
  unfold FS.set
  rw [List.filter_cons]
  simp only [beq_self_eq_true, Bool.not_true, Bool.false_eq_true, if_false,
    List.filter_filter]
  congr 1
  apply List.filter_congr
  intro x _
  cases hx : x.fst == p <;> simp [hx]

/-- C6: for every existing input path, put uses the captured time `now` as
the deletion time: it returns the canonicalized original path together with
that timestamp, and the record file it creates holds the encoded trash info
built from the canonical path and that same timestamp, written before the
payload is moved into the files directory. -/
theorem put_spec (t : Trash) (fs : FS) (now : NaiveDateTime) (mt : Nat) (p cp : FsPath)
    (hcanon : canonicalizePath fs p = some cp) :
    ∀ (fs' : FS) (rep : TrashPutReport) (idf : List Nat),
      put t fs now mt p = (fs', Except.ok (rep, idf)) →
      rep = ⟨cp, now⟩ ∧
      fs' = renameFS
        (FS.set (createDirs t fs mt).fst (trashinfoPath t idf)
          (Node.file (encodeTrashInfo ⟨cp, now⟩) mt))
        cp (pjoin t.filesDir idf) := by
  intro fs' rep idf h
  unfold put at h
  rw [hcanon] at h
  cases hcd : (createDirs t fs mt).snd with
  | false =>
    simp only [hcd] at h
    simp at h
  | true =>
    simp only [hcd, Bool.not_true, Bool.false_eq_true, if_false] at h
    cases ho : openNewTrashinfoFile t (createDirs t fs mt).fst cp mt with
    | error e => rw [ho] at h; simp at h
    | ok pr =>
      obtain ⟨id2, fs2⟩ := pr
      rw [ho] at h
      simp at h
      obtain ⟨hfs', hrep, hid⟩ := h
      refine ⟨hrep.symm ▸ rfl, ?_⟩
      rw [← hfs', openNew_ok_shape t _ cp mt id2 fs2 ho, FS.set_set, hid]

/-- Witness for C6: a concrete put captures the given timestamp and writes
the encoded record for the canonical path. -/
theorem put_spec_witness :
    (put ⟨bs "/T"⟩ [(bs "/d/name", Node.file (bs "a") 1)]
        ⟨2025, 1, 2, 3, 4, 5⟩ 3 (bs "/d/name")).snd =
      Except.ok (⟨bs "/d/name", ⟨2025, 1, 2, 3, 4, 5⟩⟩, bs "name") ∧
    (put ⟨bs "/T"⟩ [(bs "/d/name", Node.file (bs "a") 1)]
        ⟨2025, 1, 2, 3, 4, 5⟩ 3 (bs "/d/name")).fst =
      renameFS
        (FS.set (createDirs ⟨bs "/T"⟩ [(bs "/d/name", Node.file (bs "a") 1)] 3).fst
          (trashinfoPath ⟨bs "/T"⟩ (bs "name"))
          (Node.file (encodeTrashInfo ⟨bs "/d/name", ⟨2025, 1, 2, 3, 4, 5⟩⟩) 3))
        (bs "/d/name") (pjoin (Trash.filesDir ⟨bs "/T"⟩) (bs "name")) := by
  have hEq : put ⟨bs "/T"⟩ [(bs "/d/name", Node.file (bs "a") 1)]
      ⟨2025, 1, 2, 3, 4, 5⟩ 3 (bs "/d/name") =
      ((put ⟨bs "/T"⟩ [(bs "/d/name", Node.file (bs "a") 1)]
        ⟨2025, 1, 2, 3, 4, 5⟩ 3 (bs "/d/name")).fst,
       Except.ok (⟨bs "/d/name", ⟨2025, 1, 2, 3, 4, 5⟩⟩, bs "name")) := by decide
  have h := put_spec ⟨bs "/T"⟩ [(bs "/d/name", Node.file (bs "a") 1)]
    ⟨2025, 1, 2, 3, 4, 5⟩ 3 (bs "/d/name") (bs "/d/name") (by decide)
    (put ⟨bs "/T"⟩ [(bs "/d/name", Node.file (bs "a") 1)]
      ⟨2025, 1, 2, 3, 4, 5⟩ 3 (bs "/d/name")).fst
    ⟨bs "/d/name", ⟨2025, 1, 2, 3, 4, 5⟩⟩ (bs "name") hEq
  exact ⟨congrArg Prod.snd hEq, h.2⟩

theorem foldl_del_none_preserved (tips : List FsPath) : ∀ (fs : FS) (p : FsPath),
    fs.lookup p = none → (tips.foldl FS.del fs).lookup p = none := by
  induction tips with
  | nil => intro fs p h; exact h
  | cons c cs ih =>
    intro fs p h
    rw [List.foldl_cons]
    exact ih _ p (lookup_filter_none fs _ p h)

theorem foldl_del_lookup_mem (tips : List FsPath) : ∀ (fs : FS) (p : FsPath),
    p ∈ tips → (tips.foldl FS.del fs).lookup p = none := by
  induction tips with
  | nil => intro fs p h; cases h
  | cons c cs ih =>
    intro fs p h
    rw [List.foldl_cons]
    by_cases hp : p ∈ cs
    · exact ih _ p hp
    · have hpc : p = c := by
        rcases List.mem_cons.1 h with h | h
        · exact h
        · exact absurd h hp
      subst hpc
      exact foldl_del_none_preserved cs _ p
        (lookup_filter_excluded fs _ p (fun v => by simp))

theorem foldl_del_preserved (tips : List FsPath) : ∀ (fs : FS) (p : FsPath),
    (∀ q ∈ tips, p ≠ q) → (tips.foldl FS.del fs).lookup p = fs.lookup p := by
  induction tips with
  | nil => intro fs p _; rfl
  | cons c cs ih =>
    intro fs p h
    rw [List.foldl_cons]
    rw [ih _ p (fun q hq => h q (by simp [hq]))]
    exact lookup_del_ne fs c p (h c (by simp))

theorem foldl_rda_none_preserved (children : List FsPath) : ∀ (fs : FS) (p : FsPath),
    fs.lookup p = none →
    (children.foldl
      (fun a c => a.filter (fun e => !(e.fst == c) && !(isUnder c e.fst))) fs).lookup p
      = none := by
  induction children with
  | nil => intro fs p h; exact h
  | cons c cs ih =>
    intro fs p h
    rw [List.foldl_cons]
    exact ih _ p (lookup_filter_none fs _ p h)

theorem foldl_rda_removes (children : List FsPath) : ∀ (fs : FS) (c : FsPath),
    c ∈ children → ∀ q, (q = c ∨ isUnder c q = true) →
    (children.foldl
      (fun a c => a.filter (fun e => !(e.fst == c) && !(isUnder c e.fst))) fs).lookup q
      = none := by
  induction children with
  | nil => intro fs c h; cases h
  | cons c0 cs ih =>
    intro fs c h q hq
    rw [List.foldl_cons]
    by_cases hc : c ∈ cs
    · exact ih _ c hc q hq
    · have hcc : c = c0 := by
        rcases List.mem_cons.1 h with h | h
        · exact h
        · exact absurd h hc
      subst hcc
      refine foldl_rda_none_preserved cs _ q
        (lookup_filter_excluded fs _ q (fun v => ?_))
      rcases hq with rfl | hq
      · simp
      · simp [hq]

theorem foldl_rda_preserved (children : List FsPath) : ∀ (fs : FS) (p : FsPath),
    (∀ c ∈ children, p ≠ c ∧ isUnder c p = false) →
    (children.foldl
      (fun a c => a.filter (fun e => !(e.fst == c) && !(isUnder c e.fst))) fs).lookup p
      = fs.lookup p := by
  induction children with
  | nil => intro fs p _; rfl
  | cons c cs ih =>
    intro fs p h
    rw [List.foldl_cons]
    rw [ih _ p (fun q hq => h q (by simp [hq]))]
    exact lookup_filter_of_key fs _ p (fun v => by
      obtain ⟨h1, h2⟩ := h c (by simp)
      simp [beq_false_of_ne h1, h2])

theorem readDir_mem_childOf (fs : FS) (d p : FsPath) (h : p ∈ readDir fs d) :
    (d ++ [47]).isPrefixOf p = true := by
  unfold readDir at h
  obtain ⟨e, _, he⟩ := List.mem_filterMap.1 h
  unfold childNameOf at he
  by_cases hp : (d ++ [47]).isPrefixOf e.fst = true
  · rw [if_pos hp] at he
    by_cases hbad : (e.fst.drop (d.length + 1)).isEmpty ∨
        (e.fst.drop (d.length + 1)).contains 47
    · rw [if_pos (by simpa using hbad)] at he
      cases he
    · rw [if_neg (by simpa using hbad)] at he
      simp at he
      rw [← he]
      exact hp
  · rw [if_neg hp] at he
    cases he

theorem trashinfoPaths_under_info (t : Trash) (fs : FS) (tips : List FsPath)
    (h : trashinfoPathsOf t fs = Except.ok tips) :
    ∀ p ∈ tips, (t.infoDir ++ [47]).isPrefixOf p = true := by
  unfold trashinfoPathsOf readDirOrEmpty at h
  cases hres : resolveNode fs linkFuel t.infoDir with
  | none =>
    rw [hres] at h
    simp [Except.map] at h
    subst h
    intro p hp
    cases hp
  | some node =>
    cases node with
    | file c m => rw [hres] at h; cases h
    | symlink tgt m => rw [hres] at h; cases h
    | dir m =>
      rw [hres] at h
      simp [Except.map] at h
      intro p hp
      rw [← h] at hp
      exact readDir_mem_childOf fs t.infoDir p (List.mem_filter.1 hp).1

theorem dsFile_normal (t : Trash) :
    t.dsFile = (t.baseDir ++ [47]) ++
      (100 :: [105, 114, 101, 99, 116, 111, 114, 121, 115, 105, 122, 101, 115]) := by
  unfold Trash.dsFile pjoin
  have h : bs "directorysizes" =
      [100, 105, 114, 101, 99, 116, 111, 114, 121, 115, 105, 122, 101, 115] := by decide
  rw [h]
  simp

theorem infoDir_slash_normal (t : Trash) :
    Trash.infoDir t ++ [47] = (t.baseDir ++ [47]) ++ [105, 110, 102, 111, 47] := by
  unfold Trash.infoDir pjoin
  have h : bs "info" = [105, 110, 102, 111] := by decide
  rw [h]
  simp

theorem filesDir_slash_normal (t : Trash) :
    Trash.filesDir t ++ [47] = (t.baseDir ++ [47]) ++ [102, 105, 108, 101, 115, 47] := by
  unfold Trash.filesDir pjoin
  have h : bs "files" = [102, 105, 108, 101, 115] := by decide
  rw [h]
  simp

theorem prefix_shape (B L p : List Nat) (h : (B ++ L).isPrefixOf p = true) :
    ∃ tail, p = B ++ (L ++ tail) := by
  obtain ⟨tail, ht⟩ := List.isPrefixOf_iff_prefix.1 h
  exact ⟨tail, by rw [← ht, List.append_assoc]⟩

theorem tip_ne_dsFile (t : Trash) (p : FsPath)
    (h : (Trash.infoDir t ++ [47]).isPrefixOf p = true) : p ≠ t.dsFile := by
  rw [infoDir_slash_normal] at h
  obtain ⟨tail, htail⟩ := prefix_shape _ _ p h
  rw [htail, dsFile_normal]
  exact append_cons_ne_head _ 105 100 _ _ (by omega)

theorem child_vs_dsFile (t : Trash) (c : FsPath)
    (h : (Trash.filesDir t ++ [47]).isPrefixOf c = true) :
    t.dsFile ≠ c ∧ isUnder c t.dsFile = false := by
  rw [filesDir_slash_normal] at h
  obtain ⟨tail, htail⟩ := prefix_shape _ _ c h
  constructor
  · rw [htail, dsFile_normal]
    exact append_cons_ne_head _ 100 102 _ _ (by omega)
  · unfold isUnder
    rw [htail, dsFile_normal]
    have hsh : (t.baseDir ++ [47]) ++ ([102, 105, 108, 101, 115, 47] ++ tail) ++ [47] =
        (t.baseDir ++ [47]) ++ (102 :: ([105, 108, 101, 115, 47] ++ tail ++ [47])) := by
      simp
    rw [hsh]
    exact append_cons_isPrefixOf_false _ 102 100 _ _ (by omega)

/-- C5: the code diverges from the claim.  On a well-formed trash holding
one record and one regular-file payload (`oneFileTrashFS`) the behaviour the
claim describes — every payload of the files directory removed and counted,
then the size-cache file removed (`emptyTrashSpec`) — succeeds with one
counted entry, but the program's `empty` (`emptyTrash`) fails: it runs
`std::fs::remove_dir_all` on each files-directory entry, and
`remove_dir_all` errors with `NotADirectory` on a regular file.  The trash
state is healthy — the same trash with a directory payload (`oneDirTrashFS`)
is emptied successfully with the same count — so the failure is a
deterministic refusal of the most common payload kind, not an unrecoverable
I/O error of the environment. -/
theorem empty_regular_file_divergence :
    trashinfoPathsOf ⟨bs "/T"⟩ oneFileTrashFS =
      Except.ok [bs "/T/info/f.trashinfo"] ∧
    FS.get oneFileTrashFS (bs "/T/files/f") = some (Node.file (bs "data") 7) ∧
    (emptyTrashSpec ⟨bs "/T"⟩ oneFileTrashFS).snd = Except.ok ⟨1, 0⟩ ∧
    (emptyTrash ⟨bs "/T"⟩ oneFileTrashFS).snd = Except.error () ∧
    (emptyTrash ⟨bs "/T"⟩ oneDirTrashFS).snd = Except.ok ⟨1, 0⟩ := by
  exact ⟨by decide, by decide, by decide, by decide, by decide⟩

end IronBin
